import Mathlib

/-!
Verification development for the `fruition-crawler` SEO site auditor.

This file is a shallow embedding, in Lean 4, of the crawl engine in
`src/modules/crawler.py` and of the health-score computation in `src/app.py`.
Pure Python functions become Lean functions; the crawl loop becomes a
deterministic step function over an explicit state, parameterised by a pure
"web" oracle standing for the network; library routines from `urllib.parse`
that the source calls (`urlparse`, `urlunparse`, `urljoin`) are modelled
following CPython's algorithms, on `List Char`.
-/

namespace Crawler

/-! ### Character helpers (ASCII, as Python's `str` methods act on ASCII) -/

/-- ASCII lowercasing of one character (`str.lower` on ASCII input). -/
def lowerChar (c : Char) : Char :=
  if 65 ≤ c.toNat ∧ c.toNat ≤ 90 then Char.ofNat (c.toNat + 32) else c

/-- Lowercase a character list. -/
def lowerL (s : List Char) : List Char := s.map lowerChar

/-- ASCII letter test. -/
def isAlphaChar (c : Char) : Bool :=
  (decide (65 ≤ c.toNat) && decide (c.toNat ≤ 90)) ||
  (decide (97 ≤ c.toNat) && decide (c.toNat ≤ 122))

/-- ASCII digit test. -/
def isDigitChar (c : Char) : Bool :=
  decide (48 ≤ c.toNat) && decide (c.toNat ≤ 57)

/-- Characters of Python's whitespace set stripped by `str.strip()`. -/
def isPyWs (c : Char) : Bool :=
  c == ' ' || c == '\t' || c == '\n' || c == '\x0d' || c == '\x0c' || c == '\x0b'

/-- Python `str.strip()` on a character list. -/
def pyStripL (s : List Char) : List Char :=
  ((s.dropWhile isPyWs).reverse.dropWhile isPyWs).reverse

/-- Python `str.strip()` on a `String`. -/
def pyStrip (s : String) : String := ⟨pyStripL s.data⟩

/-! ### `urllib.parse` model

CPython's `urlsplit` removes the scheme (lowercased, when the prefix before
the first `:` is a nonempty run of scheme characters starting with a letter),
then the netloc (after a leading `//`, up to the next `/`, `?` or `#`), then
splits the fragment at the first `#` and the query at the first `?`.
`urlparse` additionally splits `;params` off the last path segment.
-/

/-- Characters admissible in a URL scheme (urllib's `scheme_chars`). -/
def schemeChar (c : Char) : Bool :=
  isAlphaChar c || isDigitChar c || c == '+' || c == '-' || c == '.'

/-- Split a list at the first occurrence of `t`:
`some (before, after)` with `t ∉ before`; `none` when `t` is absent. -/
def splitFirst (t : Char) : List Char → Option (List Char × List Char)
  | [] => none
  | c :: cs =>
    if c = t then some ([], cs) else
      match splitFirst t cs with
      | none => none
      | some (a, b) => some (c :: a, b)

/-- Scheme removal step of `urlsplit`: returns `(scheme, rest)`. -/
def splitScheme (u : List Char) : List Char × List Char :=
  match splitFirst ':' u with
  | none => ([], u)
  | some (pre, post) =>
    if pre ≠ [] ∧ (isAlphaChar pre.headI = true) ∧ pre.all schemeChar then
      (lowerL pre, post)
    else ([], u)

/-- Netloc test characters: netloc extends to the first `/`, `?` or `#`. -/
def netlocEnd (c : Char) : Bool := c == '/' || c == '?' || c == '#'

/-- Netloc removal step of `urlsplit` (taken when `url[:2] == '//'`):
returns `(netloc, rest)`. -/
def splitNetloc (u : List Char) : List Char × List Char :=
  if u.take 2 = ['/', '/'] then
    ((u.drop 2).takeWhile (fun c => !netlocEnd c),
     (u.drop 2).dropWhile (fun c => !netlocEnd c))
  else ([], u)

/-- Fragment split of `urlsplit` (first `#`). -/
def splitFragment (u : List Char) : List Char × List Char :=
  match splitFirst '#' u with
  | none => (u, [])
  | some (a, b) => (a, b)

/-- Query split of `urlsplit` (first `?`). -/
def splitQuery (u : List Char) : List Char × List Char :=
  match splitFirst '?' u with
  | none => (u, [])
  | some (a, b) => (a, b)

/-- Split a list at the last occurrence of `t`:
`some (before, after)` with `t ∉ after`. -/
def splitLastOcc (t : Char) (s : List Char) : Option (List Char × List Char) :=
  match splitFirst t s.reverse with
  | none => none
  | some (brev, arev) => some (arev.reverse, brev.reverse)

/-- CPython's `_splitparams`: split `;params` off the last path segment. -/
def splitParamsL (s : List Char) : List Char × List Char :=
  if s.contains '/' then
    match splitLastOcc '/' s with
    | some (a, b) =>
      match splitFirst ';' b with
      | none => (s, [])
      | some (b1, b2) => (a ++ '/' :: b1, b2)
    | none => (s, [])
  else
    match splitFirst ';' s with
    | some (p, par) => (p, par)
    | none => (s, [])

/-- Result of `urllib.parse.urlparse`. -/
structure ParseResult where
  scheme : List Char
  netloc : List Char
  path : List Char
  params : List Char
  query : List Char
  fragment : List Char
  deriving Repr, DecidableEq

/-- The params split as `urlparse` performs it (guarded by `';' in url`). -/
def parsePathParams (rest : List Char) : List Char × List Char :=
  if rest.contains ';' then splitParamsL rest else (rest, [])

/-- `urllib.parse.urlparse` (via `urlsplit` plus the params split). -/
def urlparseL (u : List Char) : ParseResult :=
  let sr := splitScheme u
  let nr := splitNetloc sr.2
  let fr := splitFragment nr.2
  let qr := splitQuery fr.1
  let pp := parsePathParams qr.1
  ⟨sr.1, nr.1, pp.1, pp.2, qr.2, fr.2⟩

/-- Rejoin path and params (`urlunparse` prepends `;params` when nonempty). -/
def joinParams (path params : List Char) : List Char :=
  if params = [] then path else path ++ ';' :: params

/-- `urllib.parse.urlunsplit`. -/
def urlunsplitL (scheme netloc url query fragment : List Char) : List Char :=
  let url := if netloc ≠ [] ∨ url.take 2 = ['/', '/'] then
      (let url := if url ≠ [] ∧ url.headI ≠ '/' then '/' :: url else url
       '/' :: '/' :: (netloc ++ url))
    else url
  let url := if scheme ≠ [] then scheme ++ ':' :: url else url
  let url := if query ≠ [] then url ++ '?' :: query else url
  if fragment ≠ [] then url ++ '#' :: fragment else url

/-- `urllib.parse.urlunparse`. -/
def urlunparseL (scheme netloc path params query fragment : List Char) : List Char :=
  urlunsplitL scheme netloc (joinParams path params) query fragment

/-! ### `SEOCrawler._normalize_url` -/

/-- The reassembled form used inside `_normalize_url`: the URL's parse,
put back together by `urlunparse` with the fragment dropped. -/
def preNormal (u : List Char) : List Char :=
  let p := urlparseL u
  urlunparseL p.scheme p.netloc p.path p.params p.query []

/-- The bare-root string `f"{scheme}://{netloc}/"` of `_normalize_url`. -/
def rootForm (u : List Char) : List Char :=
  let p := urlparseL u
  p.scheme ++ ':' :: '/' :: '/' :: (p.netloc ++ ['/'])

/-- `SEOCrawler._normalize_url` on character lists: drop the fragment,
then remove one trailing slash unless the result is the bare root. -/
def normalizeL (u : List Char) : List Char :=
  let normalized := preNormal u
  if normalized.getLast? = some '/' ∧ normalized ≠ rootForm u then
    normalized.dropLast
  else normalized

/-- `SEOCrawler._normalize_url` on `String`s. -/
def normalizeUrl (s : String) : String := ⟨normalizeL s.data⟩

/-! ### Character lemmas -/

theorem char_toNat_inj {c d : Char} (h : c.toNat = d.toNat) : c = d :=
  Char.eq_of_val_eq (UInt32.toNat.inj h)

theorem toNat_lowerChar (c : Char) :
    (lowerChar c).toNat =
      if 65 ≤ c.toNat ∧ c.toNat ≤ 90 then c.toNat + 32 else c.toNat := by
  unfold lowerChar
  split
  · next h =>
    have hv : (c.toNat + 32).isValidChar := Or.inl (by omega)
    unfold Char.ofNat
    rw [dif_pos hv]
    rfl
  · rfl

theorem lowerChar_idem (c : Char) : lowerChar (lowerChar c) = lowerChar c := by
  apply char_toNat_inj
  rw [toNat_lowerChar (lowerChar c)]
  rcases Decidable.em (65 ≤ c.toNat ∧ c.toNat ≤ 90) with h | h
  · have hx : (lowerChar c).toNat = c.toNat + 32 := by
      rw [toNat_lowerChar c, if_pos h]
    rw [hx, if_neg (by omega)]
  · have hx : (lowerChar c).toNat = c.toNat := by
      rw [toNat_lowerChar c, if_neg h]
    rw [hx, if_neg h]

theorem lowerL_idem (s : List Char) : lowerL (lowerL s) = lowerL s := by
  unfold lowerL
  rw [List.map_map]
  exact List.map_congr_left fun c _ => lowerChar_idem c

theorem isAlphaChar_lowerChar {c : Char} (h : isAlphaChar c = true) :
    isAlphaChar (lowerChar c) = true := by
  simp only [isAlphaChar, Bool.or_eq_true, Bool.and_eq_true, decide_eq_true_eq] at h ⊢
  rw [toNat_lowerChar c]
  rcases Decidable.em (65 ≤ c.toNat ∧ c.toNat ≤ 90) with h2 | h2
  · rw [if_pos h2]; omega
  · rw [if_neg h2]; omega

theorem isDigitChar_lowerChar {c : Char} (h : isDigitChar c = true) :
    isDigitChar (lowerChar c) = true := by
  simp only [isDigitChar, Bool.and_eq_true, decide_eq_true_eq] at h ⊢
  rw [toNat_lowerChar c, if_neg (by omega)]
  exact h

theorem lowerChar_eq_self {c : Char} (h : ¬(65 ≤ c.toNat ∧ c.toNat ≤ 90)) :
    lowerChar c = c := by
  unfold lowerChar
  rw [if_neg h]

theorem schemeChar_lowerChar {c : Char} (h : schemeChar c = true) :
    schemeChar (lowerChar c) = true := by
  simp only [schemeChar, Bool.or_eq_true, beq_iff_eq] at h ⊢
  rcases h with (((h | h) | rfl) | rfl) | rfl
  · exact Or.inl (Or.inl (Or.inl (Or.inl (isAlphaChar_lowerChar h))))
  · exact Or.inl (Or.inl (Or.inl (Or.inr (isDigitChar_lowerChar h))))
  · rw [lowerChar_eq_self (by decide)]
    decide
  · rw [lowerChar_eq_self (by decide)]
    decide
  · rw [lowerChar_eq_self (by decide)]
    decide

theorem headI_lowerL {s : List Char} (h : s ≠ []) :
    (lowerL s).headI = lowerChar s.headI := by
  cases s with
  | nil => exact absurd rfl h
  | cons c cs => rfl

theorem lowerL_eq_nil_iff {s : List Char} : lowerL s = [] ↔ s = [] := by
  unfold lowerL
  exact List.map_eq_nil_iff

theorem all_lowerL {s : List Char} (h : s.all schemeChar = true) :
    (lowerL s).all schemeChar = true := by
  simp only [List.all_eq_true] at h ⊢
  intro c hc
  unfold lowerL at hc
  obtain ⟨d, hd, rfl⟩ := List.mem_map.mp hc
  exact schemeChar_lowerChar (h d hd)

/-! ### `splitFirst` and `splitLastOcc` lemmas -/

theorem splitFirst_none_iff {t : Char} {l : List Char} :
    splitFirst t l = none ↔ t ∉ l := by
  induction l with
  | nil => simp [splitFirst]
  | cons c cs ih =>
    rw [splitFirst]
    by_cases hc : c = t
    · subst hc
      simp
    · rw [if_neg hc]
      cases hsf : splitFirst t cs with
      | none =>
        have h1 : t ∉ cs := ih.mp hsf
        have h2 : t ≠ c := fun h => hc h.symm
        simp [List.mem_cons, h1, h2]
      | some ab =>
        obtain ⟨a, b⟩ := ab
        have h1 : t ∈ cs := by
          by_contra hmem
          rw [ih.mpr hmem] at hsf
          cases hsf
        simp [h1]

theorem splitFirst_some {t : Char} {l a b : List Char}
    (h : splitFirst t l = some (a, b)) : l = a ++ t :: b ∧ t ∉ a := by
  induction l generalizing a with
  | nil => simp [splitFirst] at h
  | cons c cs ih =>
    by_cases hc : c = t
    · subst hc
      rw [splitFirst, if_pos rfl] at h
      obtain ⟨rfl, rfl⟩ := by simpa using h
      simp
    · rw [splitFirst, if_neg hc] at h
      cases hsf : splitFirst t cs with
      | none => rw [hsf] at h; simp at h
      | some ab =>
        obtain ⟨a', b'⟩ := ab
        rw [hsf] at h
        simp only [Option.some.injEq, Prod.mk.injEq] at h
        obtain ⟨ha, rfl⟩ := h
        obtain ⟨rfl, hmem⟩ := ih hsf
        subst ha
        refine ⟨rfl, ?_⟩
        simp only [List.mem_cons]
        rintro (h | h)
        · exact hc h.symm
        · exact hmem h

theorem splitFirst_append {t : Char} {a : List Char} (b : List Char)
    (h : t ∉ a) : splitFirst t (a ++ t :: b) = some (a, b) := by
  induction a with
  | nil => simp [splitFirst]
  | cons c cs ih =>
    have hc : c ≠ t := fun hct => h (hct ▸ List.mem_cons_self c cs)
    rw [List.cons_append, splitFirst, if_neg hc,
      ih (fun hm => h (List.mem_cons_of_mem c hm))]

theorem splitLastOcc_some {t : Char} {s a b : List Char}
    (h : splitLastOcc t s = some (a, b)) : s = a ++ t :: b ∧ t ∉ b := by
  unfold splitLastOcc at h
  cases hsf : splitFirst t s.reverse with
  | none => rw [hsf] at h; simp at h
  | some p =>
    obtain ⟨brev, arev⟩ := p
    rw [hsf] at h
    simp only [Option.some.injEq, Prod.mk.injEq] at h
    obtain ⟨rfl, rfl⟩ := h
    obtain ⟨hs, hmem⟩ := splitFirst_some hsf
    constructor
    · have := congrArg List.reverse hs
      simpa [List.reverse_append] using this
    · simpa using hmem

theorem splitLastOcc_append {t : Char} (a : List Char) {b : List Char}
    (h : t ∉ b) : splitLastOcc t (a ++ t :: b) = some (a, b) := by
  unfold splitLastOcc
  have : (a ++ t :: b).reverse = b.reverse ++ t :: a.reverse := by
    simp [List.reverse_append]
  rw [this, splitFirst_append _ (by simpa using h)]
  simp

theorem splitLastOcc_none_iff {t : Char} {s : List Char} :
    splitLastOcc t s = none ↔ t ∉ s := by
  unfold splitLastOcc
  cases hsf : splitFirst t s.reverse with
  | none =>
    have := splitFirst_none_iff.mp hsf
    simp only [List.mem_reverse] at this
    simp [this]
  | some ab =>
    have h1 : t ∈ s := by
      by_contra hmem
      rw [splitFirst_none_iff.mpr (by simpa using hmem)] at hsf
      cases hsf
    obtain ⟨a, b⟩ := ab
    simp [h1]

theorem contains_iff {t : Char} {l : List Char} : l.contains t = true ↔ t ∈ l :=
  List.elem_iff

theorem joinParams_nil (p : List Char) : joinParams p [] = p := by
  rw [joinParams, if_pos rfl]

/-! ### The params split is stable under reassembly -/

theorem parsePathParams_join (rest : List Char) :
    parsePathParams
        (joinParams (parsePathParams rest).1 (parsePathParams rest).2)
      = parsePathParams rest := by
  by_cases hsemi : rest.contains ';' = true
  · have hsemi' : ';' ∈ rest := contains_iff.mp hsemi
    by_cases hslash : rest.contains '/' = true
    · have hslash' : '/' ∈ rest := contains_iff.mp hslash
      cases hlo : splitLastOcc '/' rest with
      | none => exact absurd (splitLastOcc_none_iff.mp hlo) (by simpa using hslash')
      | some ab =>
        obtain ⟨a, b⟩ := ab
        obtain ⟨hrest, hnob⟩ := splitLastOcc_some hlo
        have hred : splitParamsL rest =
            (match splitFirst ';' b with
             | none => (rest, [])
             | some (b1, b2) => (a ++ '/' :: b1, b2)) := by
          rw [splitParamsL, if_pos hslash, hlo]
        cases hsf : splitFirst ';' b with
        | none =>
          have hP : parsePathParams rest = (rest, []) := by
            rw [parsePathParams, if_pos hsemi, hred, hsf]
          rw [hP]
          simpa [joinParams] using hP
        | some b12 =>
          obtain ⟨b1, b2⟩ := b12
          obtain ⟨hb, hnob1⟩ := splitFirst_some hsf
          have hP : parsePathParams rest = (a ++ '/' :: b1, b2) := by
            rw [parsePathParams, if_pos hsemi, hred, hsf]
          rw [hP]
          by_cases hb2 : b2 = []
          · subst hb2
            rw [joinParams_nil]
            have hnb1slash : '/' ∉ b1 := fun hm =>
              hnob (hb ▸ List.mem_append.mpr (Or.inl hm))
            by_cases hsemi2 : (a ++ '/' :: b1).contains ';' = true
            · have hred2 : splitParamsL (a ++ '/' :: b1) =
                  (match splitFirst ';' b1 with
                   | none => (a ++ '/' :: b1, [])
                   | some (c1, c2) => (a ++ '/' :: c1, c2)) := by
                rw [splitParamsL,
                  if_pos (contains_iff.mpr (List.mem_append.mpr
                    (Or.inr (List.mem_cons_self _ _)))),
                  splitLastOcc_append a hnb1slash]
              rw [parsePathParams, if_pos hsemi2, hred2,
                splitFirst_none_iff.mpr hnob1]
            · rw [parsePathParams, if_neg hsemi2]
          · have hjoin : joinParams (a ++ '/' :: b1) b2 = rest := by
              rw [joinParams, if_neg hb2, hrest, hb]
              simp
            rw [hjoin, hP]
    · -- ';' present, '/' absent
      have hslash' : '/' ∉ rest := fun hm => hslash (contains_iff.mpr hm)
      cases hsf : splitFirst ';' rest with
      | none => exact absurd (splitFirst_none_iff.mp hsf) (by simpa using hsemi')
      | some ppar =>
        obtain ⟨p, par⟩ := ppar
        obtain ⟨hrest, hnop⟩ := splitFirst_some hsf
        have hP : parsePathParams rest = (p, par) := by
          rw [parsePathParams, if_pos hsemi, splitParamsL, if_neg hslash, hsf]
        rw [hP]
        by_cases hpar : par = []
        · subst hpar
          rw [joinParams_nil]
          rw [parsePathParams, if_neg (fun hc => hnop (contains_iff.mp hc))]
        · have hjoin : joinParams p par = rest := by
            rw [joinParams, if_neg hpar, hrest]
          rw [hjoin, hP]
  · have hP : parsePathParams rest = (rest, []) := by
      rw [parsePathParams, if_neg hsemi]
    rw [hP]
    simpa [joinParams] using hP

/-! ### Stage lemmas: reparsing an assembled URL -/

/-- The scheme-recognition test of `urlsplit` on a candidate prefix. -/
def schemeTestOk (pre : List Char) : Prop :=
  pre ≠ [] ∧ (isAlphaChar pre.headI = true) ∧ pre.all schemeChar = true

theorem not_colon_of_all_schemeChar {s : List Char}
    (h : s.all schemeChar = true) : ':' ∉ s := fun hm =>
  absurd ((List.all_eq_true.mp h) _ hm) (by decide)

theorem splitScheme_eq_none {u : List Char} (h : splitFirst ':' u = none) :
    splitScheme u = ([], u) := by
  unfold splitScheme
  rw [h]

theorem splitScheme_eq_some {u pre post : List Char}
    (h : splitFirst ':' u = some (pre, post)) :
    splitScheme u =
      if pre ≠ [] ∧ (isAlphaChar pre.headI = true) ∧ pre.all schemeChar then
        (lowerL pre, post)
      else ([], u) := by
  unfold splitScheme
  rw [h]

theorem splitScheme_assembled {s : List Char} (w : List Char)
    (hok : schemeTestOk s) (hfix : lowerL s = s) :
    splitScheme (s ++ ':' :: w) = (s, w) := by
  rw [splitScheme_eq_some (splitFirst_append _ (not_colon_of_all_schemeChar hok.2.2)),
    if_pos ⟨hok.1, hok.2.1, hok.2.2⟩, hfix]

theorem splitScheme_fst_nil {u : List Char} (h : (splitScheme u).1 = []) :
    ∀ pre post, splitFirst ':' u = some (pre, post) → ¬ schemeTestOk pre := by
  intro pre post hsf hok
  rw [splitScheme_eq_some hsf, if_pos ⟨hok.1, hok.2.1, hok.2.2⟩] at h
  exact hok.1 (lowerL_eq_nil_iff.mp h)

theorem splitScheme_snd {u : List Char} (h : (splitScheme u).1 = []) :
    (splitScheme u).2 = u := by
  cases hsf : splitFirst ':' u with
  | none => rw [splitScheme_eq_none hsf]
  | some prepost =>
    obtain ⟨pre, post⟩ := prepost
    rw [splitScheme_eq_some hsf] at h ⊢
    by_cases hc : pre ≠ [] ∧ (isAlphaChar pre.headI = true) ∧ pre.all schemeChar
    · rw [if_pos hc] at h
      exact absurd (lowerL_eq_nil_iff.mp h) hc.1
    · rw [if_neg hc]

theorem splitScheme_not_alpha {c : Char} (v : List Char)
    (h : isAlphaChar c = false) : splitScheme (c :: v) = ([], c :: v) := by
  cases hsf : splitFirst ':' (c :: v) with
  | none => exact splitScheme_eq_none hsf
  | some prepost =>
    obtain ⟨pre, post⟩ := prepost
    obtain ⟨heq, hnp⟩ := splitFirst_some hsf
    rw [splitScheme_eq_some hsf, if_neg]
    intro hok
    cases pre with
    | nil => exact hok.1 rfl
    | cons d ds =>
      have hd : d = c := by
        rw [List.cons_append] at heq
        exact (List.cons.injEq _ _ _ _ ▸ heq).1.symm
      have : isAlphaChar d = true := hok.2.1
      rw [hd, h] at this
      cases this

theorem splitScheme_nil : splitScheme [] = ([], []) := rfl

theorem splitScheme_carry {u j qp : List Char}
    (hu : (splitScheme u).1 = []) (hj : j <+: u)
    (hqp : qp = [] ∨ ∃ q', qp = '?' :: q') :
    splitScheme (j ++ qp) = ([], j ++ qp) := by
  have hfail := splitScheme_fst_nil hu
  cases hsf : splitFirst ':' (j ++ qp) with
  | none => exact splitScheme_eq_none hsf
  | some prepost =>
    obtain ⟨pre, post⟩ := prepost
    obtain ⟨heq, hnp⟩ := splitFirst_some hsf
    rw [splitScheme_eq_some hsf, if_neg]
    intro hok
    have hpre : pre <+: j ++ qp := ⟨':' :: post, heq.symm⟩
    rcases List.prefix_or_prefix_of_prefix hpre (List.prefix_append j qp)
      with hple | hjle
    · obtain ⟨d, hd⟩ := hple
      have hdq : d ++ qp = ':' :: post := by
        have h2 : pre ++ (d ++ qp) = pre ++ ':' :: post := by
          rw [← List.append_assoc, hd, ← heq]
        exact List.append_cancel_left h2
      cases d with
      | nil =>
        rcases hqp with rfl | ⟨q', rfl⟩
        · cases hdq
        · rw [List.nil_append] at hdq
          cases hdq
      | cons e es =>
        have he : e = ':' := (List.cons.injEq _ _ _ _ ▸ hdq).1
        obtain ⟨t, ht⟩ := hj
        have hu2 : u = pre ++ ':' :: (es ++ t) := by
          rw [← ht, ← hd]
          subst he
          simp
        exact hfail pre (es ++ t) (hu2 ▸ splitFirst_append _ hnp) hok
    · obtain ⟨e, he⟩ := hjle
      have hqpe : qp = e ++ ':' :: post := by
        have h2 : j ++ qp = j ++ (e ++ ':' :: post) := by
          rw [← List.append_assoc, he, ← heq]
        exact List.append_cancel_left h2
      rcases hqp with rfl | ⟨q', rfl⟩
      · exact absurd hqpe.symm (by simp)
      · cases e with
        | nil =>
          rw [List.nil_append] at hqpe
          cases hqpe
        | cons f fs =>
          have hf : f = '?' := ((List.cons.injEq _ _ _ _ ▸ hqpe).1).symm
          have hmem : '?' ∈ pre := by
            rw [← he, ← hf]
            exact List.mem_append.mpr (Or.inr (List.mem_cons_self _ _))
          exact absurd ((List.all_eq_true.mp hok.2.2) _ hmem) (by decide)

theorem take_two_eq_slash_slash {v : List Char} (h : v.take 2 = ['/', '/']) :
    ∃ t, v = '/' :: '/' :: t := by
  cases v with
  | nil => simp at h
  | cons a w =>
    cases w with
    | nil => simp at h
    | cons b t =>
      have h2 : ([a, b] : List Char) = ['/', '/'] := h
      have h3 : a = '/' ∧ b = '/' := by simpa using h2
      exact ⟨t, by rw [h3.1, h3.2]⟩

theorem takeWhile_dropWhile_append {p : Char → Bool} {n t : List Char}
    (hn : n.all p = true) (ht : t = [] ∨ p t.headI = false) :
    (n ++ t).takeWhile p = n ∧ (n ++ t).dropWhile p = t := by
  induction n with
  | nil =>
    rcases ht with rfl | hh
    · simp
    · cases t with
      | nil => simp
      | cons c t' =>
        simp only [List.headI] at hh
        simp [List.takeWhile_cons, List.dropWhile_cons, hh]
  | cons c cs ih =>
    have hc : p c = true := by
      simp only [List.all_cons, Bool.and_eq_true] at hn
      exact hn.1
    have hcs : cs.all p = true := by
      simp only [List.all_cons, Bool.and_eq_true] at hn
      exact hn.2
    obtain ⟨h1, h2⟩ := ih hcs
    simp [List.takeWhile_cons, List.dropWhile_cons, hc, h1, h2]

theorem splitNetloc_assembled {n t : List Char}
    (hn : n.all (fun c => !netlocEnd c) = true)
    (ht : t = [] ∨ netlocEnd t.headI = true) :
    splitNetloc ('/' :: '/' :: (n ++ t)) = (n, t) := by
  have ht' : t = [] ∨ (fun c => !netlocEnd c) t.headI = false := by
    rcases ht with rfl | hh
    · exact Or.inl rfl
    · exact Or.inr (by simp [hh])
  obtain ⟨h1, h2⟩ := takeWhile_dropWhile_append hn ht'
  unfold splitNetloc
  rw [if_pos (show List.take 2 ('/' :: '/' :: (n ++ t)) = ['/', '/'] from rfl)]
  simp only [List.drop_succ_cons, List.drop_zero]
  rw [h1, h2]

theorem splitNetloc_plain {v : List Char} (h : v.take 2 ≠ ['/', '/']) :
    splitNetloc v = ([], v) := by
  unfold splitNetloc
  rw [if_neg h]

theorem splitFragment_no_hash {w : List Char} (h : '#' ∉ w) :
    splitFragment w = (w, []) := by
  unfold splitFragment
  rw [splitFirst_none_iff.mpr h]

theorem splitQuery_assembled {j : List Char} (q : List Char) (h : '?' ∉ j) :
    splitQuery (j ++ '?' :: q) = (j, q) := by
  unfold splitQuery
  rw [splitFirst_append _ h]

theorem splitQuery_no {w : List Char} (h : '?' ∉ w) :
    splitQuery w = (w, []) := by
  unfold splitQuery
  rw [splitFirst_none_iff.mpr h]

/-! ### Facts about the components an `urlparseL` run produces -/

theorem splitFragment_eq_none {w : List Char} (h : splitFirst '#' w = none) :
    splitFragment w = (w, []) := by
  unfold splitFragment
  rw [h]

theorem splitFragment_eq_some {w a b : List Char}
    (h : splitFirst '#' w = some (a, b)) : splitFragment w = (a, b) := by
  unfold splitFragment
  rw [h]

theorem splitQuery_eq_none {w : List Char} (h : splitFirst '?' w = none) :
    splitQuery w = (w, []) := by
  unfold splitQuery
  rw [h]

theorem splitQuery_eq_some {w a b : List Char}
    (h : splitFirst '?' w = some (a, b)) : splitQuery w = (a, b) := by
  unfold splitQuery
  rw [h]

theorem prefix_headI {l₁ l₂ : List Char} (h : l₁ <+: l₂) (hne : l₁ ≠ []) :
    l₁.headI = l₂.headI := by
  obtain ⟨t, rfl⟩ := h
  cases l₁ with
  | nil => exact absurd rfl hne
  | cons c cs => rfl

theorem dropWhile_head_not (p : Char → Bool) (l : List Char) :
    l.dropWhile p = [] ∨ p (l.dropWhile p).headI = false := by
  induction l with
  | nil => exact Or.inl rfl
  | cons c cs ih =>
    rw [List.dropWhile_cons]
    by_cases hc : p c = true
    · rw [if_pos hc]
      exact ih
    · rw [if_neg hc]
      exact Or.inr (by simpa using hc)

theorem splitFragment_fst_le (w : List Char) : (splitFragment w).1 <+: w := by
  cases hsf : splitFirst '#' w with
  | none =>
    rw [splitFragment_eq_none hsf]
  | some ab =>
    obtain ⟨a, b⟩ := ab
    rw [splitFragment_eq_some hsf]
    exact ⟨'#' :: b, (splitFirst_some hsf).1.symm⟩

theorem splitQuery_fst_le (w : List Char) : (splitQuery w).1 <+: w := by
  cases hsf : splitFirst '?' w with
  | none =>
    rw [splitQuery_eq_none hsf]
  | some ab =>
    obtain ⟨a, b⟩ := ab
    rw [splitQuery_eq_some hsf]
    exact ⟨'?' :: b, (splitFirst_some hsf).1.symm⟩

theorem not_mem_splitFragment_fst (w : List Char) : '#' ∉ (splitFragment w).1 := by
  cases hsf : splitFirst '#' w with
  | none =>
    rw [splitFragment_eq_none hsf]
    exact splitFirst_none_iff.mp hsf
  | some ab =>
    obtain ⟨a, b⟩ := ab
    rw [splitFragment_eq_some hsf]
    exact (splitFirst_some hsf).2

theorem not_mem_splitQuery_fst (w : List Char) : '?' ∉ (splitQuery w).1 := by
  cases hsf : splitFirst '?' w with
  | none =>
    rw [splitQuery_eq_none hsf]
    exact splitFirst_none_iff.mp hsf
  | some ab =>
    obtain ⟨a, b⟩ := ab
    rw [splitQuery_eq_some hsf]
    exact (splitFirst_some hsf).2

theorem mem_splitQuery_snd {w : List Char} {c : Char}
    (h : c ∈ (splitQuery w).2) : c ∈ w := by
  cases hsf : splitFirst '?' w with
  | none =>
    rw [splitQuery_eq_none hsf] at h
    cases h
  | some ab =>
    obtain ⟨a, b⟩ := ab
    rw [splitQuery_eq_some hsf] at h
    rw [(splitFirst_some hsf).1]
    exact List.mem_append.mpr (Or.inr (List.mem_cons_of_mem _ h))

theorem mem_splitQuery_fst {w : List Char} {c : Char}
    (h : c ∈ (splitQuery w).1) : c ∈ w :=
  (splitQuery_fst_le w).subset h

/-! ### `joinParams` facts -/

theorem mem_of_mem_fst_joinParams {p par : List Char} {c : Char}
    (h : c ∈ p) : c ∈ joinParams p par := by
  unfold joinParams
  split
  · exact h
  · exact List.mem_append.mpr (Or.inl h)

theorem mem_of_mem_snd_joinParams {p par : List Char} {c : Char}
    (h : c ∈ par) : c ∈ joinParams p par := by
  unfold joinParams
  split
  · next heq => rw [heq] at h; cases h
  · exact List.mem_append.mpr (Or.inr (List.mem_cons_of_mem _ h))

theorem mem_joinParams {p par : List Char} {c : Char}
    (h : c ∈ joinParams p par) : c ∈ p ∨ c = ';' ∨ c ∈ par := by
  unfold joinParams at h
  split at h
  · exact Or.inl h
  · rcases List.mem_append.mp h with h | h
    · exact Or.inl h
    · rcases List.mem_cons.mp h with h | h
      · exact Or.inr (Or.inl h)
      · exact Or.inr (Or.inr h)

theorem joinParams_eq_nil_iff {p par : List Char} :
    joinParams p par = [] ↔ p = [] ∧ par = [] := by
  unfold joinParams
  split
  · next heq => simp [heq]
  · next hne => simp [hne]

theorem headI_joinParams {p : List Char} (par : List Char) (h : p ≠ []) :
    (joinParams p par).headI = p.headI := by
  unfold joinParams
  split
  · rfl
  · cases p with
    | nil => exact absurd rfl h
    | cons c cs => rfl

theorem take2_joinParams {p par : List Char} :
    (joinParams p par).take 2 = ['/', '/'] ↔ p.take 2 = ['/', '/'] := by
  unfold joinParams
  split
  · exact Iff.rfl
  · cases p with
    | nil => simp
    | cons a w =>
      cases w with
      | nil => simp
      | cons b t => simp

/-- Reassembling the two halves of the params split gives back either the
input or the input less a trailing `;`. -/
theorem joinParams_parse (rest : List Char) :
    joinParams (parsePathParams rest).1 (parsePathParams rest).2 = rest ∨
      rest =
        joinParams (parsePathParams rest).1 (parsePathParams rest).2 ++ [';'] := by
  by_cases hsemi : rest.contains ';' = true
  · by_cases hslash : rest.contains '/' = true
    · have hslash' : '/' ∈ rest := contains_iff.mp hslash
      cases hlo : splitLastOcc '/' rest with
      | none => exact absurd (splitLastOcc_none_iff.mp hlo) (by simpa using hslash')
      | some ab =>
        obtain ⟨a, b⟩ := ab
        obtain ⟨hrest, hnob⟩ := splitLastOcc_some hlo
        have hred : splitParamsL rest =
            (match splitFirst ';' b with
             | none => (rest, [])
             | some (b1, b2) => (a ++ '/' :: b1, b2)) := by
          rw [splitParamsL, if_pos hslash, hlo]
        cases hsf : splitFirst ';' b with
        | none =>
          rw [parsePathParams, if_pos hsemi, hred, hsf, joinParams_nil]
          exact Or.inl rfl
        | some b12 =>
          obtain ⟨b1, b2⟩ := b12
          obtain ⟨hb, hnob1⟩ := splitFirst_some hsf
          rw [parsePathParams, if_pos hsemi, hred, hsf]
          by_cases hb2 : b2 = []
          · subst hb2
            rw [joinParams_nil]
            right
            rw [hrest, hb]
            simp
          · left
            rw [joinParams, if_neg hb2, hrest, hb]
            simp
    · cases hsf : splitFirst ';' rest with
      | none =>
        exact absurd (splitFirst_none_iff.mp hsf)
          (by simpa using contains_iff.mp hsemi)
      | some ppar =>
        obtain ⟨p, par⟩ := ppar
        obtain ⟨hrest, hnop⟩ := splitFirst_some hsf
        rw [parsePathParams, if_pos hsemi, splitParamsL, if_neg hslash, hsf]
        by_cases hpar : par = []
        · subst hpar
          rw [joinParams_nil]
          right
          rw [hrest]
        · left
          rw [joinParams, if_neg hpar, hrest]
  · rw [parsePathParams, if_neg hsemi, joinParams_nil]
    exact Or.inl rfl

theorem joinParams_parse_le (rest : List Char) :
    joinParams (parsePathParams rest).1 (parsePathParams rest).2 <+: rest := by
  rcases joinParams_parse rest with h | h
  · rw [h]
  · exact ⟨[';'], h.symm⟩

theorem mem_parsePathParams_fst {rest : List Char} {c : Char}
    (h : c ∈ (parsePathParams rest).1) : c ∈ rest :=
  (joinParams_parse_le rest).subset (mem_of_mem_fst_joinParams h)

theorem mem_parsePathParams_snd {rest : List Char} {c : Char}
    (h : c ∈ (parsePathParams rest).2) : c ∈ rest :=
  (joinParams_parse_le rest).subset (mem_of_mem_snd_joinParams h)

theorem headI_mem_of_ne {l : List Char} (h : l ≠ []) : l.headI ∈ l := by
  cases l with
  | nil => exact absurd rfl h
  | cons c cs => exact List.mem_cons_self _ _

theorem takeWhile_all (p : Char → Bool) (l : List Char) :
    (l.takeWhile p).all p = true := by
  induction l with
  | nil => rfl
  | cons c cs ih =>
    rw [List.takeWhile_cons]
    by_cases hc : p c = true
    · rw [if_pos hc]
      simpa [hc] using ih
    · rw [if_neg hc]
      rfl

theorem scheme_fact (u : List Char) :
    (splitScheme u).1 = [] ∨
      (schemeTestOk (splitScheme u).1 ∧
        lowerL (splitScheme u).1 = (splitScheme u).1) := by
  cases hsf : splitFirst ':' u with
  | none =>
    rw [splitScheme_eq_none hsf]
    exact Or.inl rfl
  | some prepost =>
    obtain ⟨pre, post⟩ := prepost
    rw [splitScheme_eq_some hsf]
    by_cases hc : pre ≠ [] ∧ (isAlphaChar pre.headI = true) ∧ pre.all schemeChar
    · rw [if_pos hc]
      refine Or.inr ⟨⟨?_, ?_, ?_⟩, lowerL_idem pre⟩
      · exact fun hh => hc.1 (lowerL_eq_nil_iff.mp hh)
      · show isAlphaChar (lowerL pre).headI = true
        rw [headI_lowerL hc.1]
        exact isAlphaChar_lowerChar hc.2.1
      · exact all_lowerL hc.2.2
    · rw [if_neg hc]
      exact Or.inl rfl

theorem netloc_fact (u1 : List Char) :
    (splitNetloc u1).1.all (fun c => !netlocEnd c) = true := by
  unfold splitNetloc
  split
  · exact takeWhile_all _ _
  · rfl

theorem netloc_nil_of_plain {u1 : List Char} (h : u1.take 2 ≠ ['/', '/']) :
    (splitNetloc u1).1 = [] := by
  rw [splitNetloc_plain h]

theorem parsePathParams_nil : parsePathParams [] = ([], []) := rfl

/-- On a nonempty list headed by `/`, the params split returns a nonempty
path also headed by `/`. -/
theorem parsePathParams_slash_head {rest : List Char} (hne : rest ≠ [])
    (hh : rest.headI = '/') :
    (parsePathParams rest).1 ≠ [] ∧ (parsePathParams rest).1.headI = '/' := by
  have hmem : '/' ∈ rest := hh ▸ headI_mem_of_ne hne
  by_cases hsemi : rest.contains ';' = true
  · rw [parsePathParams, if_pos hsemi]
    have hslash : rest.contains '/' = true := contains_iff.mpr hmem
    cases hlo : splitLastOcc '/' rest with
    | none => exact absurd (splitLastOcc_none_iff.mp hlo) (by simpa using hmem)
    | some ab =>
      obtain ⟨a, b⟩ := ab
      obtain ⟨hrest, hnob⟩ := splitLastOcc_some hlo
      have hred : splitParamsL rest =
          (match splitFirst ';' b with
           | none => (rest, [])
           | some (b1, b2) => (a ++ '/' :: b1, b2)) := by
        rw [splitParamsL, if_pos hslash, hlo]
      cases hsf : splitFirst ';' b with
      | none =>
        rw [hred, hsf]
        exact ⟨hne, hh⟩
      | some b12 =>
        obtain ⟨b1, b2⟩ := b12
        rw [hred, hsf]
        cases a with
        | nil => exact ⟨by simp, rfl⟩
        | cons x a' =>
          have hx : x = '/' := by
            have : rest.headI = x := by rw [hrest]; rfl
            rw [hh] at this
            exact this.symm
          subst hx
          exact ⟨by simp, rfl⟩
  · rw [parsePathParams, if_neg hsemi]
    exact ⟨hne, hh⟩

/-- After the netloc of an authority URL is removed, the path produced by the
remaining splits is empty or starts with `/` (and when empty carries no
params). -/
theorem rest_facts {w2 : List Char}
    (hw : w2 = [] ∨ netlocEnd w2.headI = true) :
    ((parsePathParams (splitQuery (splitFragment w2).1).1).1 = [] →
      (parsePathParams (splitQuery (splitFragment w2).1).1).2 = []) ∧
    ((parsePathParams (splitQuery (splitFragment w2).1).1).1 = [] ∨
      (parsePathParams (splitQuery (splitFragment w2).1).1).1.headI = '/') := by
  have hEmpty : ∀ rest : List Char, rest = [] →
      ((parsePathParams rest).1 = [] → (parsePathParams rest).2 = []) ∧
      ((parsePathParams rest).1 = [] ∨ (parsePathParams rest).1.headI = '/') := by
    rintro _ rfl
    rw [parsePathParams_nil]
    exact ⟨fun _ => rfl, Or.inl rfl⟩
  cases w2 with
  | nil => exact hEmpty _ rfl
  | cons c t2 =>
    rcases hw with hw | hw
    · cases hw
    · have hc : (c = '/' ∨ c = '?') ∨ c = '#' := by
        simpa [netlocEnd] using hw
      rcases hc with (rfl | rfl) | rfl
      · -- head '/'
        have hpc : (splitQuery (splitFragment ('/' :: t2)).1).1 <+: '/' :: t2 :=
          (splitQuery_fst_le _).trans (splitFragment_fst_le _)
        by_cases hne : (splitQuery (splitFragment ('/' :: t2)).1).1 = []
        · exact hEmpty _ hne
        · have hh := prefix_headI hpc hne
          obtain ⟨h1, h2⟩ := parsePathParams_slash_head hne hh
          exact ⟨fun hp => absurd hp h1, Or.inr h2⟩
      · -- head '?': query split consumes everything
        have hfr : ∀ y : List Char, (splitFragment ('?' :: t2)).1 = y →
            (splitQuery y).1 = [] := by
          intro y hy
          have hpy : y <+: '?' :: t2 := hy ▸ splitFragment_fst_le _
          cases y with
          | nil => rfl
          | cons d y' =>
            have hd : d = '?' := prefix_headI hpy (by simp)
            subst hd
            rw [splitQuery_eq_some (show splitFirst '?' ('?' :: y') =
              some ([], y') by simp [splitFirst])]
        exact hEmpty _ (hfr _ rfl)
      · -- head '#': fragment split consumes everything
        have h0 : splitFragment ('#' :: t2) = ([], t2) :=
          splitFragment_eq_some (by simp [splitFirst])
        rw [h0]
        exact hEmpty _ rfl

/-- When the `//`-netloc branch of `urlsplit` fired, the resulting path is
empty-with-no-params or starts with `/`. -/
theorem branch_facts {u1 : List Char} (hb : u1.take 2 = ['/', '/']) :
    ((parsePathParams (splitQuery (splitFragment (splitNetloc u1).2).1).1).1 = [] →
      (parsePathParams (splitQuery (splitFragment (splitNetloc u1).2).1).1).2 = []) ∧
    ((parsePathParams (splitQuery (splitFragment (splitNetloc u1).2).1).1).1 = [] ∨
      (parsePathParams (splitQuery (splitFragment (splitNetloc u1).2).1).1).1.headI
        = '/') := by
  have h2 : (splitNetloc u1).2 =
      (u1.drop 2).dropWhile (fun c => !netlocEnd c) := by
    unfold splitNetloc
    rw [if_pos hb]
  rw [h2]
  apply rest_facts
  rcases dropWhile_head_not (fun c => !netlocEnd c) (u1.drop 2) with h | h
  · exact Or.inl h
  · exact Or.inr (by simpa using h)

theorem take2_append_ne {jp qp : List Char} (h : jp.take 2 ≠ ['/', '/'])
    (hqp : qp = [] ∨ ∃ q', qp = '?' :: q') :
    (jp ++ qp).take 2 ≠ ['/', '/'] := by
  cases jp with
  | nil =>
    rcases hqp with rfl | ⟨q', rfl⟩
    · simpa using h
    · cases q' <;> simp
  | cons a w =>
    cases w with
    | nil =>
      rcases hqp with rfl | ⟨q', rfl⟩
      · simpa using h
      · intro hcontra
        simp at hcontra
    | cons b t => simpa using h

/-- Build an `urlparseL` result from the values of its stages. -/
theorem urlparseL_build {v s w n w2 u3 fr jp q p par : List Char}
    (h1 : splitScheme v = (s, w)) (h2 : splitNetloc w = (n, w2))
    (h3 : splitFragment w2 = (u3, fr)) (h4 : splitQuery u3 = (jp, q))
    (h5 : parsePathParams jp = (p, par)) :
    urlparseL v = ⟨s, n, p, par, q, fr⟩ := by
  simp only [urlparseL, h1, h2, h3, h4, h5]

/-- Closed form of `urlunsplitL` with an empty fragment. -/
theorem urlunsplitL_eq (s n jp q : List Char) :
    urlunsplitL s n jp q [] =
      (if s ≠ [] then
        s ++ ':' ::
          (if n ≠ [] ∨ jp.take 2 = ['/', '/'] then
            '/' :: '/' ::
              (n ++ (if jp ≠ [] ∧ jp.headI ≠ '/' then '/' :: jp else jp))
          else jp)
       else
        (if n ≠ [] ∨ jp.take 2 = ['/', '/'] then
          '/' :: '/' ::
            (n ++ (if jp ≠ [] ∧ jp.headI ≠ '/' then '/' :: jp else jp))
        else jp)) ++ (if q = [] then [] else '?' :: q) := by
  unfold urlunsplitL
  by_cases hq : q = [] <;> simp [hq]

/-- Round trip: reparsing the fragment-free reassembly of any URL's parse
returns the same components with the fragment cleared. -/
theorem urlparseL_preNormal (u : List Char) :
    urlparseL (preNormal u) = { urlparseL u with fragment := [] } := by
  obtain ⟨s, u1, hsu⟩ : ∃ s u1, splitScheme u = (s, u1) := ⟨_, _, rfl⟩
  obtain ⟨n, w2, hnw⟩ : ∃ n w2, splitNetloc u1 = (n, w2) := ⟨_, _, rfl⟩
  obtain ⟨u3, f, hfr⟩ : ∃ u3 f, splitFragment w2 = (u3, f) := ⟨_, _, rfl⟩
  obtain ⟨rest, q, hqr⟩ : ∃ r q, splitQuery u3 = (r, q) := ⟨_, _, rfl⟩
  obtain ⟨p, par, hpp⟩ : ∃ p par, parsePathParams rest = (p, par) := ⟨_, _, rfl⟩
  have hRu : urlparseL u = ⟨s, n, p, par, q, f⟩ :=
    urlparseL_build hsu hnw hfr hqr hpp
  -- abbreviations for the reassembled pieces
  obtain ⟨jp, hjp⟩ : ∃ jp, joinParams p par = jp := ⟨_, rfl⟩
  obtain ⟨qp, hqpd⟩ : ∃ qp, (if q = [] then ([] : List Char) else '?' :: q) = qp :=
    ⟨_, rfl⟩
  have hqp_shape : qp = [] ∨ ∃ q', qp = '?' :: q' := by
    by_cases hq : q = []
    · rw [← hqpd, if_pos hq]
      exact Or.inl rfl
    · rw [← hqpd, if_neg hq]
      exact Or.inr ⟨q, rfl⟩
  -- component facts gathered from the parse of u
  have hsF : s = [] ∨ (schemeTestOk s ∧ lowerL s = s) := by
    have := scheme_fact u
    simpa only [hsu] using this
  have hnF : n.all (fun c => !netlocEnd c) = true := by
    have := netloc_fact u1
    simpa only [hnw] using this
  have hplain : u1.take 2 ≠ ['/', '/'] → n = [] ∧ w2 = u1 := by
    intro h
    have h0 := splitNetloc_plain h
    rw [hnw] at h0
    exact ⟨congrArg Prod.fst h0, congrArg Prod.snd h0⟩
  have hp_sub : ∀ c, c ∈ p → c ∈ rest := fun c hc =>
    mem_parsePathParams_fst (by rw [hpp]; exact hc)
  have hpar_sub : ∀ c, c ∈ par → c ∈ rest := fun c hc =>
    mem_parsePathParams_snd (by rw [hpp]; exact hc)
  have hrest_sub : ∀ c, c ∈ rest → c ∈ u3 := fun c hc =>
    mem_splitQuery_fst (w := u3) (by rw [hqr]; exact hc)
  have hq_sub : ∀ c, c ∈ q → c ∈ u3 := fun c hc =>
    mem_splitQuery_snd (w := u3) (by rw [hqr]; exact hc)
  have hu3_hash : '#' ∉ u3 := by
    have := not_mem_splitFragment_fst w2
    rw [hfr] at this
    exact this
  have hrest_q : '?' ∉ rest := by
    have := not_mem_splitQuery_fst u3
    rw [hqr] at this
    exact this
  have hjp_hash : '#' ∉ jp := by
    rw [← hjp]
    intro hc
    rcases mem_joinParams hc with h | h | h
    · exact hu3_hash (hrest_sub _ (hp_sub _ h))
    · exact absurd h (by decide)
    · exact hu3_hash (hrest_sub _ (hpar_sub _ h))
  have hjp_q : '?' ∉ jp := by
    rw [← hjp]
    intro hc
    rcases mem_joinParams hc with h | h | h
    · exact hrest_q (hp_sub _ h)
    · exact absurd h (by decide)
    · exact hrest_q (hpar_sub _ h)
  have hq_hash : '#' ∉ q := fun hc => hu3_hash (hq_sub _ hc)
  have hjpp : parsePathParams jp = (p, par) := by
    rw [← hjp]
    have := parsePathParams_join rest
    simp only [hpp] at this
    exact this
  have hbrF : u1.take 2 = ['/', '/'] →
      (p = [] → par = []) ∧ (p = [] ∨ p.headI = '/') := by
    intro hb
    have := branch_facts hb
    simp only [hnw, hfr, hqr, hpp] at this
    exact this
  have hjp_shape : u1.take 2 = ['/', '/'] → jp = [] ∨ jp.headI = '/' := by
    intro hb
    rcases (hbrF hb).2 with hp | hp
    · left
      rw [← hjp, joinParams_eq_nil_iff]
      exact ⟨hp, (hbrF hb).1 hp⟩
    · by_cases hpe : p = []
      · left
        rw [← hjp, joinParams_eq_nil_iff]
        exact ⟨hpe, (hbrF hb).1 hpe⟩
      · right
        rw [← hjp, headI_joinParams _ hpe]
        exact hp
  -- the uniform tail of the pipeline
  have h3 : splitFragment (jp ++ qp) = (jp ++ qp, []) := by
    apply splitFragment_no_hash
    intro hc
    rcases List.mem_append.mp hc with h | h
    · exact hjp_hash h
    · rcases hqp_shape with rfl | ⟨q', rfl⟩
      · cases h
      · rcases List.mem_cons.mp h with h | h
        · exact absurd h (by decide)
        · have hq' : q' = q := by
            by_cases hq : q = []
            · rw [← hqpd, if_pos hq] at *
              simp at *
            · have := hqpd
              rw [if_neg hq] at this
              exact ((List.cons.injEq _ _ _ _ ▸ this).2).symm ▸ rfl
          exact hq_hash (hq' ▸ h)
  have h4 : splitQuery (jp ++ qp) = (jp, q) := by
    by_cases hq : q = []
    · have hqe : qp = [] := by rw [← hqpd, if_pos hq]
      rw [hqe, List.append_nil, splitQuery_no hjp_q, hq]
    · have hqe : qp = '?' :: q := by rw [← hqpd, if_neg hq]
      rw [hqe]
      exact splitQuery_assembled q hjp_q
  -- the assembled string
  have hpre : preNormal u = urlunsplitL s n jp q [] := by
    unfold preNormal urlunparseL
    rw [hRu]
    show urlunsplitL s n (joinParams p par) q [] = urlunsplitL s n jp q []
    rw [hjp]
  rw [hpre, hRu]
  show urlparseL (urlunsplitL s n jp q []) = ⟨s, n, p, par, q, []⟩
  rw [urlunsplitL_eq, hqpd]
  by_cases hcond : n ≠ [] ∨ jp.take 2 = ['/', '/']
  · -- the `//` branch of urlunsplit
    have hjpS : jp = [] ∨ jp.headI = '/' := by
      rcases hcond with hn | ht
      · have hb : u1.take 2 = ['/', '/'] := by
          by_contra hnb
          exact hn (hplain hnb).1
        exact hjp_shape hb
      · obtain ⟨t, hjp2⟩ := take_two_eq_slash_slash ht
        rw [hjp2]
        exact Or.inr rfl
    have hinner : (if jp ≠ [] ∧ jp.headI ≠ '/' then '/' :: jp else jp) = jp := by
      rw [if_neg]
      rintro ⟨hne, hh⟩
      rcases hjpS with rfl | hh2
      · exact hne rfl
      · exact hh hh2
    rw [if_pos hcond, hinner]
    have hshape : jp ++ qp = [] ∨ netlocEnd (jp ++ qp).headI = true := by
      by_cases hje : jp = []
      · subst hje
        rcases hqp_shape with rfl | ⟨q', rfl⟩
        · exact Or.inl rfl
        · exact Or.inr (show netlocEnd '?' = true by decide)
      · rcases hjpS with rfl | hh
        · exact absurd rfl hje
        · right
          cases jp with
          | nil => exact absurd rfl hje
          | cons c js =>
            have : c = '/' := hh
            rw [List.cons_append]
            simp [netlocEnd, this]
    have hN : splitNetloc (('/' :: '/' :: (n ++ jp)) ++ qp) = (n, jp ++ qp) := by
      have h0 := splitNetloc_assembled hnF hshape
      rw [show ('/' :: '/' :: (n ++ jp)) ++ qp = '/' :: '/' :: (n ++ (jp ++ qp)) by
        simp]
      exact h0
    by_cases hs : s = []
    · subst hs
      rw [if_neg (by simp)]
      have hS : splitScheme (('/' :: '/' :: (n ++ jp)) ++ qp) =
          ([], ('/' :: '/' :: (n ++ jp)) ++ qp) :=
        splitScheme_not_alpha _ (by decide)
      exact urlparseL_build hS hN h3 h4 hjpp
    · rcases hsF with rfl | ⟨hok, hfix⟩
      · exact absurd rfl hs
      rw [if_pos hs]
      have hS : splitScheme ((s ++ ':' :: ('/' :: '/' :: (n ++ jp))) ++ qp) =
          (s, ('/' :: '/' :: (n ++ jp)) ++ qp) := by
        rw [List.append_assoc]
        exact splitScheme_assembled _ hok hfix
      exact urlparseL_build hS hN h3 h4 hjpp
  · -- the plain branch of urlunsplit
    rw [if_neg hcond]
    have hn0 : n = [] := by
      by_contra hne
      exact hcond (Or.inl hne)
    have hjt : jp.take 2 ≠ ['/', '/'] := fun ht => hcond (Or.inr ht)
    have hN : splitNetloc (jp ++ qp) = (n, jp ++ qp) := by
      rw [hn0]
      exact splitNetloc_plain (take2_append_ne hjt hqp_shape)
    by_cases hs : s = []
    · subst hs
      rw [if_neg (by simp)]
      have hS : splitScheme (jp ++ qp) = ([], jp ++ qp) := by
        by_cases hbr : u1.take 2 = ['/', '/']
        · rcases hjp_shape hbr with rfl | hh
          · rcases hqp_shape with rfl | ⟨q', rfl⟩
            · exact splitScheme_nil
            · exact splitScheme_not_alpha _ (by decide)
          · cases jp with
            | nil =>
              rcases hqp_shape with rfl | ⟨q', rfl⟩
              · exact splitScheme_nil
              · exact splitScheme_not_alpha _ (by decide)
            | cons c js =>
              have hc : c = '/' := hh
              subst hc
              exact splitScheme_not_alpha _ (by decide)
        · have huu : u1 = u := by
            have h0 : (splitScheme u).1 = [] := by rw [hsu]
            have h1 := splitScheme_snd h0
            rw [hsu] at h1
            exact h1
          have hw2u : w2 = u1 := (hplain hbr).2
          have hjpre : jp <+: u := by
            have h1 : jp <+: rest := by
              rw [← hjp]
              have := joinParams_parse_le rest
              simpa only [hpp] using this
            have h2 : rest <+: u3 := by
              have := splitQuery_fst_le u3
              rw [hqr] at this
              exact this
            have h0 : u3 <+: w2 := by
              have := splitFragment_fst_le w2
              rw [hfr] at this
              exact this
            calc jp <+: rest := h1
              _ <+: u3 := h2
              _ <+: w2 := h0
              _ = u1 := hw2u
              _ = u := huu
          exact splitScheme_carry (by rw [hsu]) hjpre hqp_shape
      exact urlparseL_build hS hN h3 h4 hjpp
    · rcases hsF with rfl | ⟨hok, hfix⟩
      · exact absurd rfl hs
      rw [if_pos hs]
      have hS : splitScheme ((s ++ ':' :: jp) ++ qp) = (s, jp ++ qp) := by
        rw [List.append_assoc]
        exact splitScheme_assembled _ hok hfix
      exact urlparseL_build hS hN h3 h4 hjpp

end Crawler

namespace Crawler

/-! ### Idempotence of `_normalize_url` (claim C10) -/

/-- When `_normalize_url` strips no trailing slash (its result is exactly the
fragment-free reassembly of the parse), a second application is the
identity. -/
theorem preNormal_eq (u : List Char) :
    preNormal u = urlunparseL (urlparseL u).scheme (urlparseL u).netloc
      (urlparseL u).path (urlparseL u).params (urlparseL u).query [] := rfl

theorem rootForm_eq (u : List Char) :
    rootForm u = (urlparseL u).scheme ++
      ':' :: '/' :: '/' :: ((urlparseL u).netloc ++ ['/']) := rfl

theorem normalizeL_idem_of_eq_preNormal {u : List Char}
    (h : normalizeL u = preNormal u) :
    normalizeL (normalizeL u) = normalizeL u := by
  rw [h]
  have hroot : rootForm (preNormal u) = rootForm u := by
    rw [rootForm_eq (preNormal u), urlparseL_preNormal u]
    rfl
  have hpp : preNormal (preNormal u) = preNormal u := by
    rw [preNormal_eq (preNormal u), urlparseL_preNormal u]
    rfl
  have hcond : ¬((preNormal u).getLast? = some '/' ∧ preNormal u ≠ rootForm u) := by
    intro hc
    have h2 : normalizeL u = (preNormal u).dropLast := by
      unfold normalizeL
      rw [if_pos hc]
    rw [h] at h2
    have hne : preNormal u ≠ [] := by
      intro he
      rw [he] at hc
      cases hc.1
    have h3 := congrArg List.length h2
    rw [List.length_dropLast] at h3
    have hl : 0 < (preNormal u).length := List.length_pos.mpr hne
    omega
  show normalizeL (preNormal u) = preNormal u
  unfold normalizeL
  rw [hpp, hroot, if_neg hcond]

end Crawler

namespace Crawler

/-- **C10, counterexample.** `_normalize_url` is not idempotent: on the URL
`https://example.com/a//` one application strips a single trailing slash,
returning `https://example.com/a/`, and a second application strips
another. -/
theorem C10_normalize_not_idempotent :
    normalizeUrl "https://example.com/a//" = "https://example.com/a/" ∧
    normalizeUrl (normalizeUrl "https://example.com/a//") = "https://example.com/a" ∧
    normalizeUrl (normalizeUrl "https://example.com/a//") ≠
      normalizeUrl "https://example.com/a//" := by
  refine ⟨rfl, rfl, ?_⟩
  decide

/-- **C10 (amended).** URL normalization is idempotent on every URL string
from which it strips no trailing slash: whenever `normalize(u)` equals the
fragment-free reassembly of `u`'s parse (`urlunparse` of `urlparse u` with
the fragment cleared), `normalize(normalize(u)) = normalize(u)`. -/
theorem C10_normalize_idempotent_noStrip (u : String)
    (h : normalizeUrl u = ⟨preNormal u.data⟩) :
    normalizeUrl (normalizeUrl u) = normalizeUrl u := by
  have h' : normalizeL u.data = preNormal u.data := congrArg String.data h
  show (⟨normalizeL (normalizeUrl u).data⟩ : String) = ⟨normalizeL u.data⟩
  have h2 : (normalizeUrl u).data = normalizeL u.data := rfl
  rw [h2, normalizeL_idem_of_eq_preNormal h']

/-- **C10 witness.** The amended idempotence theorem applied at the concrete
URL `http://h/p`. -/
theorem C10_witness :
    normalizeUrl "http://h/p" = ⟨preNormal "http://h/p".data⟩ ∧
    normalizeUrl (normalizeUrl "http://h/p") = normalizeUrl "http://h/p" :=
  ⟨rfl, C10_normalize_idempotent_noStrip _ rfl⟩

end Crawler

namespace Crawler

/-! ### Health score (`src/app.py`, `generate_executive_summary`) -/

/-- SEO health score: start at 100, subtract `15·critical + 8·high +
3·medium + 1·low`, floor at 0 (`score = max(0, score)`). -/
def healthScore (critical high medium low : Nat) : Int :=
  max 0 (100 - 15 * (critical : Int) - 8 * (high : Int)
    - 3 * (medium : Int) - 1 * (low : Int))

/-- Health level band (`if score >= 90 ... elif 75 ... elif 50 ... else`). -/
def healthLevel (score : Int) : String :=
  if score ≥ 90 then "Excellent"
  else if score ≥ 75 then "Good"
  else if score ≥ 50 then "Fair"
  else "Poor"

theorem healthLevel_excellent {s : Int} (h : 90 ≤ s) :
    healthLevel s = "Excellent" := by
  unfold healthLevel
  rw [if_pos h]

theorem healthLevel_good {s : Int} (h1 : 75 ≤ s) (h2 : s < 90) :
    healthLevel s = "Good" := by
  unfold healthLevel
  rw [if_neg (by omega), if_pos h1]

theorem healthLevel_fair {s : Int} (h1 : 50 ≤ s) (h2 : s < 75) :
    healthLevel s = "Fair" := by
  unfold healthLevel
  rw [if_neg (by omega), if_neg (by omega), if_pos h1]

theorem healthLevel_poor {s : Int} (h : s < 50) : healthLevel s = "Poor" := by
  unfold healthLevel
  rw [if_neg (by omega), if_neg (by omega), if_neg (by omega)]

/-- **C8.** For every issue summary with counts `critical, high, medium,
low`, the health score equals `100 − 15·critical − 8·high − 3·medium −
1·low` clamped to `[0, 100]`, and the band is Excellent iff `score ≥ 90`,
Good iff `75 ≤ score < 90`, Fair iff `50 ≤ score < 75`, Poor otherwise. -/
theorem C8_health_score_bands (c h m l : Nat) :
    healthScore c h m l =
      min 100 (max 0 (100 - 15 * (c : Int) - 8 * (h : Int)
        - 3 * (m : Int) - 1 * (l : Int))) ∧
    (healthLevel (healthScore c h m l) = "Excellent" ↔
      90 ≤ healthScore c h m l) ∧
    (healthLevel (healthScore c h m l) = "Good" ↔
      75 ≤ healthScore c h m l ∧ healthScore c h m l < 90) ∧
    (healthLevel (healthScore c h m l) = "Fair" ↔
      50 ≤ healthScore c h m l ∧ healthScore c h m l < 75) ∧
    (healthLevel (healthScore c h m l) = "Poor" ↔
      healthScore c h m l < 50) := by
  have hs : healthScore c h m l = max 0 (100 - 15 * (c : Int) - 8 * (h : Int)
      - 3 * (m : Int) - 1 * (l : Int)) := rfl
  refine ⟨?_, ?_, ?_, ?_, ?_⟩
  · rw [hs]
    have hc : (0 : Int) ≤ (c : Int) := Int.natCast_nonneg c
    have hh : (0 : Int) ≤ (h : Int) := Int.natCast_nonneg h
    have hm : (0 : Int) ≤ (m : Int) := Int.natCast_nonneg m
    have hl : (0 : Int) ≤ (l : Int) := Int.natCast_nonneg l
    omega
  · constructor
    · intro hL
      by_contra hn
      push_neg at hn
      by_cases h75 : 75 ≤ healthScore c h m l
      · rw [healthLevel_good h75 hn] at hL
        exact absurd hL (by decide)
      · by_cases h50 : 50 ≤ healthScore c h m l
        · rw [healthLevel_fair h50 (by omega)] at hL
          exact absurd hL (by decide)
        · rw [healthLevel_poor (by omega)] at hL
          exact absurd hL (by decide)
    · exact healthLevel_excellent
  · constructor
    · intro hL
      by_cases h90 : 90 ≤ healthScore c h m l
      · rw [healthLevel_excellent h90] at hL
        exact absurd hL (by decide)
      · by_cases h75 : 75 ≤ healthScore c h m l
        · exact ⟨h75, by omega⟩
        · by_cases h50 : 50 ≤ healthScore c h m l
          · rw [healthLevel_fair h50 (by omega)] at hL
            exact absurd hL (by decide)
          · rw [healthLevel_poor (by omega)] at hL
            exact absurd hL (by decide)
    · exact fun hb => healthLevel_good hb.1 hb.2
  · constructor
    · intro hL
      by_cases h90 : 90 ≤ healthScore c h m l
      · rw [healthLevel_excellent h90] at hL
        exact absurd hL (by decide)
      · by_cases h75 : 75 ≤ healthScore c h m l
        · rw [healthLevel_good h75 (by omega)] at hL
          exact absurd hL (by decide)
        · by_cases h50 : 50 ≤ healthScore c h m l
          · exact ⟨h50, by omega⟩
          · rw [healthLevel_poor (by omega)] at hL
            exact absurd hL (by decide)
    · exact fun hb => healthLevel_fair hb.1 hb.2
  · constructor
    · intro hL
      by_cases h90 : 90 ≤ healthScore c h m l
      · rw [healthLevel_excellent h90] at hL
        exact absurd hL (by decide)
      · by_cases h75 : 75 ≤ healthScore c h m l
        · rw [healthLevel_good h75 (by omega)] at hL
          exact absurd hL (by decide)
        · by_cases h50 : 50 ≤ healthScore c h m l
          · rw [healthLevel_fair h50 (by omega)] at hL
            exact absurd hL (by decide)
          · omega
    · exact healthLevel_poor

/-- **C8 witness.** One critical issue gives score 85 and band Good. -/
theorem C8_witness :
    healthScore 1 0 0 0 = 85 ∧ healthLevel (healthScore 1 0 0 0) = "Good" :=
  ⟨by decide, (C8_health_score_bands 1 0 0 0).2.2.1.mpr ⟨by decide, by decide⟩⟩

end Crawler

namespace Crawler

/-! ### Same-domain test (`SEOCrawler._is_same_domain`) -/

/-- Python `str.replace("www.", "")`: delete every occurrence of `www.`,
scanning left to right. -/
def stripWww : List Char → List Char
  | 'w' :: 'w' :: 'w' :: '.' :: rest => stripWww rest
  | c :: rest => c :: stripWww rest
  | [] => []

/-- `SEOCrawler._is_same_domain`, with the crawler's stored `self.domain`
made an explicit argument: compare the URL's netloc against the domain,
each with every `www.` deleted. -/
def isSameDomain (domain : String) (url : String) : Bool :=
  stripWww (urlparseL url.data).netloc == stripWww domain.data

/-! ### Sitemap resolution (`_fetch_and_parse_sitemap`, `_parse_sitemap_xml`) -/

/-- Abstract content of one sitemap XML document after namespace stripping:
a `<sitemapindex>` with its `<sitemap><loc>` texts, a regular sitemap with
its `<url><loc>` texts, or malformed XML (`ET.ParseError`). -/
inductive SitemapXml where
  | index (locs : List String)
  | urlset (locs : List String)
  | malformed
  deriving Repr, DecidableEq

/-- One sitemap HTTP response: status code plus the document (gzip decoding
is transparent at this level). -/
structure SitemapResp where
  status : Nat
  xml : SitemapXml
  deriving Repr, DecidableEq

/-- The network as seen by the sitemap resolver; `.error msg` models a
raised exception (timeout, connection failure). -/
def SitemapWeb : Type := String → Except String SitemapResp

/-- The crawler state touched by `_fetch_and_parse_sitemap`, plus a log of
the GET requests it issues (one entry per fetch, in order). -/
structure SmState where
  domain : String
  sitemap_urls : List String
  sitemap_status : String
  fetchLog : List String
  deriving Repr, DecidableEq

/-- `_parse_sitemap_xml`: returns `(urls, nested_sitemaps)`; every `<loc>`
text is stripped and kept only when same-domain. -/
def parseSitemapXml (domain : String) : SitemapXml → List String × List String
  | .index locs =>
    ([], (locs.map pyStrip).filter (fun l => isSameDomain domain l))
  | .urlset locs =>
    ((locs.map pyStrip).filter (fun l => isSameDomain domain l), [])
  | .malformed => ([], [])

/-- The `for nested_sitemap_url in nested_sitemaps:` loop shape: run `f` on
each element in turn, threading the state, and stop (still incomplete) at
the first incomplete call -- the real execution would keep recursing
there and never reach the rest of the loop. -/
def runSitemapList (f : SmState → String → SmState × Bool) :
    SmState → List String → SmState × Bool
  | sm, [] => (sm, true)
  | sm, u :: us =>
    let res := f sm u
    if res.2 then runSitemapList f res.1 us else res

/-- `_fetch_and_parse_sitemap` with explicit fuel bounding the recursion
depth. Returns the state reached and `true` when the call completed within
the fuel; `(sm, false)` means the modelled execution was still recursing
when the fuel ran out (the source has no cycle guard, so on cyclic input no
fuel suffices). -/
def fetchSitemap (web : SitemapWeb) : Nat → SmState → String → SmState × Bool
  | 0, sm, _ => (sm, false)
  | fuel + 1, sm, url =>
    let sm := { sm with fetchLog := sm.fetchLog ++ [url] }
    match web url with
    | .error e =>
      ({ sm with sitemap_status := "Error fetching sitemap: " ++ e }, true)
    | .ok r =>
      if r.status = 200 then
        let pr := parseSitemapXml sm.domain r.xml
        let sm2 := { sm with sitemap_urls := sm.sitemap_urls ++ pr.1 }
        let res := runSitemapList (fetchSitemap web fuel) sm2 pr.2
        if res.2 then
          (if pr.1 ≠ [] ∨ pr.2 ≠ [] then
            { res.1 with sitemap_status :=
              "Found " ++ toString res.1.sitemap_urls.length
                ++ " URLs from sitemaps" }
          else
            { res.1 with sitemap_status := "Sitemap found but no URLs extracted" },
          true)
        else res
      else
        ({ sm with sitemap_status :=
          "Sitemap not found (HTTP " ++ toString r.status ++ ")" }, true)

end Crawler

namespace Crawler

/-! ### C1: sitemap cycle safety -/

/-- The failing input for C1: the URL of a sitemap index that lists itself. -/
def selfSitemapUrl : String := "https://example.com/sitemap.xml"

/-- A web serving, at `selfSitemapUrl`, a `<sitemapindex>` whose single
`<loc>` entry is that same URL. -/
def selfSitemapWeb : SitemapWeb := fun u =>
  if u = selfSitemapUrl then .ok ⟨200, .index [selfSitemapUrl]⟩
  else .error "connection error"

/-- The sitemap-resolution state of a crawl of `https://example.com`. -/
def selfSmState : SmState := ⟨"example.com", [], "Not fetched", []⟩

theorem fetchSitemap_self_incomplete :
    ∀ fuel (sm : SmState), sm.domain = "example.com" →
      (fetchSitemap selfSitemapWeb fuel sm selfSitemapUrl).2 = false := by
  intro fuel
  induction fuel with
  | zero => intro sm _; rfl
  | succ n ih =>
    intro sm hdom
    have hweb : selfSitemapWeb selfSitemapUrl =
        .ok ⟨200, .index [selfSitemapUrl]⟩ := by
      unfold selfSitemapWeb
      rw [if_pos rfl]
    have hparse : parseSitemapXml sm.domain (.index [selfSitemapUrl]) =
        ([], [selfSitemapUrl]) := by
      rw [hdom]
      decide
    simp only [fetchSitemap, hweb, hparse]
    have hrl : ∀ sm2 : SmState, sm2.domain = "example.com" →
        (runSitemapList (fetchSitemap selfSitemapWeb n) sm2 [selfSitemapUrl]).2
          = false := by
      intro sm2 h2
      have hres := ih sm2 h2
      simp only [runSitemapList]
      rw [if_neg (by simp [hres])]
      exact hres
    have hX : (⟨sm.domain, sm.sitemap_urls, sm.sitemap_status,
        sm.fetchLog ++ [selfSitemapUrl]⟩ : SmState).domain = "example.com" := hdom
    rw [if_pos trivial, if_neg (by simp [hrl _ hX])]
    exact hrl _ hX

/-- **C1 (refuted: code bug).** Sitemap resolution does not terminate on
cyclic references. The source keeps no fetched-sitemaps set, so on a
sitemap index that lists itself the recursion of `_fetch_and_parse_sitemap`
re-fetches the same URL at every level: no fuel bound suffices for the call
to complete, and with fuel 3 the same sitemap URL has already been fetched
three times, contradicting the claim that an already-fetched sitemap URL is
never fetched again. -/
theorem C1_sitemap_cycle_not_safe :
    (∀ fuel, (fetchSitemap selfSitemapWeb fuel selfSmState selfSitemapUrl).2
      = false) ∧
    (fetchSitemap selfSitemapWeb 3 selfSmState selfSitemapUrl).1.fetchLog
      = [selfSitemapUrl, selfSitemapUrl, selfSitemapUrl] :=
  ⟨fun fuel => fetchSitemap_self_incomplete fuel selfSmState rfl, by decide⟩

end Crawler

namespace Crawler

/-! ### Page records -/

/-- Status code of a crawled page: an HTTP integer, or the string values
`"Error"` / `"Timeout"` that the source's failure records use. -/
inductive StatusCode where
  | code (n : Nat)
  | error
  | timeout
  deriving Repr, DecidableEq

/-- One per-page record. The source keeps an open dict keyed by column
names; this fixes the schema, with each field's default equal to the
`.get(key, default)` the source uses when the key is absent. -/
structure Rec where
  address : String := ""
  finalUrl : String := ""
  statusCode : StatusCode := .code 0
  contentType : String := ""
  loadTime : ℚ := 0
  crawlDepth : Nat := 0
  discoverySource : String := ""
  error : String := ""
  title : String := ""
  titleLength : Nat := 0
  metaDescription : String := ""
  metaDescriptionLength : Nat := 0
  h1_1 : String := ""
  h1_1Length : Nat := 0
  h1Count : Nat := 0
  h2_1 : String := ""
  h2_1Length : Nat := 0
  h2_2 : String := ""
  h2_2Length : Nat := 0
  h2Count : Nat := 0
  h3Count : Nat := 0
  h4Count : Nat := 0
  h5Count : Nat := 0
  h6Count : Nat := 0
  headingHierarchyValid : Bool := true
  metaRobots : String := ""
  canonical : String := ""
  wordCount : Nat := 0
  paragraphCount : Nat := 0
  sentenceCount : Nat := 0
  fleschScore : ℚ := 0
  readability : String := ""
  internalLinks : Nat := 0
  externalLinks : Nat := 0
  totalLinks : Nat := 0
  totalImages : Nat := 0
  imagesWithAlt : Nat := 0
  imagesWithoutAlt : Nat := 0
  altTextCoverage : ℚ := 0
  jsonLdCount : Nat := 0
  microdataCount : Nat := 0
  schemaTypes : List String := []
  hasStructuredData : Bool := false
  indexability : String := ""
  inlinks : Nat := 0
  uniqueInlinks : Nat := 0
  deriving Repr, DecidableEq

/-! ### Retry with backoff (`crawl_page_with_retry`) -/

/-- Outcome of one `crawl_page` attempt: a returned record, or a raised
exception with its message. -/
inductive Attempt where
  | ret (r : Rec)
  | exn (msg : String)
  deriving Repr, DecidableEq

/-- An attempt fails when it raises or returns a record whose
`Status Code` is `"Error"` or `"Timeout"`. -/
def attemptFails : Attempt → Bool
  | .ret r => r.statusCode == .error || r.statusCode == .timeout
  | .exn _ => true

/-- The `last_error` a failed attempt leaves behind: `result.get('Error',
'Unknown error')` for a returned record, `str(e)` for an exception. -/
def attemptError : Attempt → String
  | .ret r => r.error
  | .exn m => m

/-- The Error record returned after all retries fail. -/
def failRec (url : String) (depth : Nat) (lastError : String) : Rec :=
  { address := url, statusCode := .error, contentType := "",
    error := "Failed after 3 attempts. Last error: " ++ lastError,
    crawlDepth := depth }

/-- The attempt loop of `crawl_page_with_retry`. `att` gives the outcome of
each attempt, `rand` the `random.uniform(0, 1)` draws; `k` is the index of
the current attempt and `remaining` the number of attempts still allowed
(3 at top level). Returns the produced record and the list of backoff
waits slept, in order: after failed attempt `k` the loop sleeps
`2^k + rand k` (when an attempt remains). -/
def retryGo (att : Nat → Attempt) (rand : Nat → ℚ) (url : String)
    (depth : Nat) : Nat → Nat → String → Rec × List ℚ
  | _, 0, lastError => (failRec url depth lastError, [])
  | k, remaining + 1, _ =>
    match att k with
    | .ret r =>
      if r.statusCode = .error ∨ r.statusCode = .timeout then
        match remaining with
        | 0 => (failRec url depth r.error, [])
        | rem + 1 =>
          let res := retryGo att rand url depth (k + 1) (rem + 1) r.error
          (res.1, (2 ^ k + rand k) :: res.2)
      else (r, [])
    | .exn m =>
      match remaining with
      | 0 => (failRec url depth m, [])
      | rem + 1 =>
        let res := retryGo att rand url depth (k + 1) (rem + 1) m
        (res.1, (2 ^ k + rand k) :: res.2)

/-- `crawl_page_with_retry` with its default `max_retries = 3`. -/
def crawlPageWithRetryM (att : Nat → Attempt) (rand : Nat → ℚ)
    (url : String) (depth : Nat) : Rec × List ℚ :=
  retryGo att rand url depth 0 3 "None"

theorem retryGo_success {att : Nat → Attempt} {rand : Nat → ℚ} {url : String}
    {depth k : Nat} {r : Rec} (rem : Nat) (x : String)
    (hret : att k = .ret r)
    (hok : ¬(r.statusCode = .error ∨ r.statusCode = .timeout)) :
    retryGo att rand url depth k (rem + 1) x = (r, []) := by
  rw [retryGo, hret]
  simp only [if_neg hok]

theorem retryGo_fail_last {att : Nat → Attempt} {rand : Nat → ℚ}
    {url : String} {depth k : Nat} (x : String)
    (h : attemptFails (att k) = true) :
    retryGo att rand url depth k 1 x =
      (failRec url depth (attemptError (att k)), []) := by
  rw [retryGo]
  cases hatt : att k with
  | ret r =>
    rw [hatt] at h
    have hfail : r.statusCode = .error ∨ r.statusCode = .timeout := by
      simpa [attemptFails] using h
    simp only [if_pos hfail, attemptError]
  | exn m => simp only [attemptError]

theorem retryGo_fail_step {att : Nat → Attempt} {rand : Nat → ℚ}
    {url : String} {depth k : Nat} (rem : Nat) (x : String)
    (h : attemptFails (att k) = true) :
    retryGo att rand url depth k (rem + 2) x =
      ((retryGo att rand url depth (k + 1) (rem + 1) (attemptError (att k))).1,
       (2 ^ k + rand k) ::
         (retryGo att rand url depth (k + 1) (rem + 1)
           (attemptError (att k))).2) := by
  rw [retryGo]
  cases hatt : att k with
  | ret r =>
    rw [hatt] at h
    have hfail : r.statusCode = .error ∨ r.statusCode = .timeout := by
      simpa [attemptFails] using h
    simp only [if_pos hfail, attemptError]
  | exn m => simp only [attemptError]

end Crawler

namespace Crawler

/-- **C4.** For every URL taken for fetch: a failed attempt (an exception
such as a timeout, TLS or connection error, or a returned record with
Status Code "Error"/"Timeout") is retried up to two more times; an attempt
returning a record whose Status Code is not "Error"/"Timeout" is returned
immediately; the wait slept after failed attempt `k` (before the k-th
retry, 0-indexed) is `2^k + U(0,1)`; and when all three attempts fail an
Error record carrying the last failure reason is returned — never no
record. -/
theorem C4_retry_with_backoff (att : Nat → Attempt) (rand : Nat → ℚ)
    (url : String) (depth : Nat) :
    (∀ k r, k < 3 → (∀ j, j < k → attemptFails (att j) = true) →
      att k = .ret r → ¬(r.statusCode = .error ∨ r.statusCode = .timeout) →
      crawlPageWithRetryM att rand url depth =
        (r, (List.range k).map fun i => 2 ^ i + rand i)) ∧
    ((∀ j, j < 3 → attemptFails (att j) = true) →
      crawlPageWithRetryM att rand url depth =
        (failRec url depth (attemptError (att 2)),
          [2 ^ 0 + rand 0, 2 ^ 1 + rand 1])) := by
  constructor
  · intro k r hk hprev hret hok
    interval_cases k
    · unfold crawlPageWithRetryM
      rw [retryGo_success 2 _ hret hok]
      simp
    · unfold crawlPageWithRetryM
      rw [retryGo_fail_step 1 _ (hprev 0 (by omega)),
        retryGo_success 1 _ hret hok]
      simp [List.range_succ]
    · unfold crawlPageWithRetryM
      rw [retryGo_fail_step 1 _ (hprev 0 (by omega)),
        retryGo_fail_step 0 _ (hprev 1 (by omega)),
        retryGo_success 0 _ hret hok]
      simp [List.range_succ]
  · intro hall
    unfold crawlPageWithRetryM
    rw [retryGo_fail_step 1 _ (hall 0 (by omega)),
      retryGo_fail_step 0 _ (hall 1 (by omega)),
      retryGo_fail_last _ (hall 2 (by omega))]

/-- Attempt oracle for the C4 witness: the first two attempts raise, the
third returns a 200 record. -/
def c4AttW : Nat → Attempt := fun k =>
  if k < 2 then .exn "boom"
  else .ret { statusCode := .code 200, address := "https://e.com" }

/-- Random-draw oracle for the C4 witness. -/
def c4RandW : Nat → ℚ := fun _ => 0

/-- **C4 witness.** Two failures then a success: the record of the third
attempt is returned and the waits are `2^0 + U` and `2^1 + U`. -/
theorem C4_witness :
    crawlPageWithRetryM c4AttW c4RandW "https://e.com" 0 =
      ({ statusCode := .code 200, address := "https://e.com" },
        (List.range 2).map fun i => 2 ^ i + c4RandW i) :=
  (C4_retry_with_backoff c4AttW c4RandW "https://e.com" 0).1 2
    { statusCode := .code 200, address := "https://e.com" }
    (by decide) (fun j hj => by interval_cases j <;> decide) rfl (by decide)

end Crawler

namespace Crawler

/-! ### Parsed HTML documents

A parsed HTML tree is embedded as its pre-order traversal: a list of
nodes, each an element (tag, attributes, depth) or a text node (string,
depth). The subtree of an element at depth `d` consists of the nodes that
follow it while their depth exceeds `d`. The BeautifulSoup operations the
analyzer uses (`find`, `find_all`, `get_text`, `decompose`) are defined
against this encoding. -/

/-- One node of the pre-order traversal of a parsed HTML tree. -/
inductive FlatNode where
  | elN (tag : String) (attrs : List (String × String)) (depth : Nat)
  | textN (s : String) (depth : Nat)
  deriving Repr, DecidableEq

/-- The depth of a node. -/
def FlatNode.depth : FlatNode → Nat
  | .elN _ _ d => d
  | .textN _ d => d

/-- A parsed document: its nodes in document (pre-)order. -/
abbrev Doc : Type := List FlatNode

/-- Does a node match an element predicate on tag and attributes? -/
def nodeIs (p : String → List (String × String) → Bool) : FlatNode → Bool
  | .elN t a _ => p t a
  | .textN _ _ => false

/-- Attribute lookup on an element node (`tag.get(key)`). -/
def attrOf (n : FlatNode) (k : String) : Option String :=
  match n with
  | .elN _ a _ => a.lookup k
  | .textN _ _ => none

/-- `tag.get(key, default)`. -/
def attrOfD (n : FlatNode) (k default : String) : String :=
  (attrOf n k).getD default

/-- The subtree (in document order) of an element at depth `d`, taken from
the nodes that follow it. -/
def subtreeOf (d : Nat) (rest : Doc) : Doc :=
  List.takeWhile (fun m => decide (d < m.depth)) rest

/-- `soup.find(...)`: the first matching element together with its
subtree. -/
def findFirst (p : String → List (String × String) → Bool) : Doc → Option (FlatNode × Doc)
  | [] => none
  | n :: rest =>
    if nodeIs p n then some (n, subtreeOf n.depth rest)
    else findFirst p rest

/-- `soup.find_all(...)`: every matching element (document order, nested
matches included), each with its subtree. -/
def findAllSubtrees (p : String → List (String × String) → Bool) : Doc → List (FlatNode × Doc)
  | [] => []
  | n :: rest =>
    (if nodeIs p n then [(n, subtreeOf n.depth rest)] else [])
      ++ findAllSubtrees p rest

/-- The matching elements only (`find_all` when subtrees are not needed). -/
def findAllElems (p : String → List (String × String) → Bool) (doc : Doc) : List FlatNode :=
  List.filter (nodeIs p) doc

/-- `get_text()`: concatenate every string in the (sub)document, in
order. -/
def getTextD (doc : Doc) : String :=
  String.join (doc.filterMap fun n =>
    match n with
    | .textN s _ => some s
    | .elN _ _ _ => none)

/-- `decompose` of every element whose tag is in `bad`, with its subtree:
walk the pre-order list keeping, in `badd`, the depth of the outermost
still-open removed element. -/
def pruneGo (bad : List String) : Option Nat → Doc → Doc
  | _, [] => []
  | badd, n :: rest =>
    let active := match badd with
      | some b => decide (b < n.depth)
      | none => false
    if active then pruneGo bad badd rest
    else
      match n with
      | .elN t a d =>
        if bad.contains t then pruneGo bad (some d) rest
        else .elN t a d :: pruneGo bad none rest
      | .textN s d => .textN s d :: pruneGo bad none rest

/-- The tags `_extract_main_content` removes before any text analysis. -/
def decomposedTags : List String :=
  ["script", "style", "nav", "footer", "header", "aside"]

/-- The document after `_extract_main_content`'s `decompose` calls (the
source mutates the soup in place, so every later query sees this). -/
def pruneDoc (doc : Doc) : Doc := pruneGo decomposedTags none doc

/-- Tag-equality element predicate. -/
def tagIs (t : String) : String → List (String × String) → Bool :=
  fun tag _ => tag == t

end Crawler

namespace Crawler

/-! ### String helpers for the analyzer -/

/-- Python `str.lower` (ASCII). -/
def lowerS (s : String) : String := ⟨lowerL s.data⟩

/-- Substring test (`sub in hay` in Python). -/
def containsSubL (hay sub : List Char) : Bool :=
  match hay with
  | [] => sub.isEmpty
  | c :: t => sub.isPrefixOf (c :: t) || containsSubL t sub

/-- `sub in s` for `String`s. -/
def strContains (s sub : String) : Bool := containsSubL s.data sub.data

/-- `s.startswith(pre)`. -/
def startsWithS (s pre : String) : Bool := pre.data.isPrefixOf s.data

/-- `s.split("  ")`: non-overlapping left-to-right split on two spaces. -/
def splitOnTwoSpaces : List Char → List Char → List (List Char)
  | [], acc => [acc.reverse]
  | [c], acc => [(c :: acc).reverse]
  | c1 :: c2 :: rest, acc =>
    if c1 = ' ' ∧ c2 = ' ' then acc.reverse :: splitOnTwoSpaces rest []
    else splitOnTwoSpaces (c2 :: rest) (c1 :: acc)

/-- The whitespace cleanup of `_extract_main_content`: strip each line,
split on double spaces, strip each phrase, join the nonempty ones with a
single space. -/
def cleanupText (text : String) : String :=
  let lines := (List.splitOn '\n' text.data).map (fun l => pyStrip ⟨l⟩)
  let chunks := ((lines.map (fun l =>
    (splitOnTwoSpaces l.data []).map (fun c => pyStrip ⟨c⟩))).flatten)
  String.intercalate " " (chunks.filter (fun c => c ≠ ""))

/-- `len(s.split())`: whitespace-separated word count. -/
def wordCountOf (s : String) : Nat :=
  ((List.splitOnP isPyWs s.data).filter (fun x => x ≠ [])).length

/-- Python `round(q, 1)` (to one decimal place). -/
def round1 (q : ℚ) : ℚ := ((round (q * 10) : ℤ) : ℚ) / 10

/-- `_get_readability_level`. -/
def readabilityLevel (q : ℚ) : String :=
  if q ≥ 90 then "Very Easy"
  else if q ≥ 80 then "Easy"
  else if q ≥ 70 then "Fairly Easy"
  else if q ≥ 60 then "Standard"
  else if q ≥ 50 then "Fairly Difficult"
  else if q ≥ 30 then "Difficult"
  else "Very Difficult"

/-! ### The HTML analyzer (`_extract_seo_data` and its helpers) -/

/-- The heading tags `_validate_heading_hierarchy` walks. -/
def headingTags : List String := ["h1", "h2", "h3", "h4", "h5", "h6"]

/-- `int(heading.name[1])`. -/
def headingLevelOf : FlatNode → Nat
  | .elN t _ _ =>
    if t = "h1" then 1 else if t = "h2" then 2 else if t = "h3" then 3
    else if t = "h4" then 4 else if t = "h5" then 5 else if t = "h6" then 6
    else 0
  | .textN _ _ => 0

/-- The walk of `_validate_heading_hierarchy`: a level may not exceed the
previous one by more than 1 (the first heading sets the baseline). -/
def hierGo : Nat → List Nat → Bool
  | _, [] => true
  | cur, l :: rest =>
    if cur = 0 then hierGo l rest
    else if l > cur + 1 then false
    else hierGo l rest

/-- `_validate_heading_hierarchy`. -/
def validateHeadingHierarchy (doc : Doc) : Bool :=
  hierGo 0 ((findAllElems (fun t _ => headingTags.contains t) doc).map headingLevelOf)

/-- `_extract_main_content`'s preferred container: the first `<main>`,
else the first `<article>`, else the first `<div>` whose class matches
`content|main|post|article`; else the whole (pruned) soup. -/
def mainDocOf (pruned : Doc) : Doc :=
  match findFirst (tagIs "main") pruned with
  | some (_, sub) => sub
  | none =>
    match findFirst (tagIs "article") pruned with
    | some (_, sub) => sub
    | none =>
      match findFirst (fun t a =>
          t == "div" &&
            (match a.lookup "class" with
             | some cls =>
               strContains cls "content" || strContains cls "main" ||
                 strContains cls "post" || strContains cls "article"
             | none => false)) pruned with
      | some (_, sub) => sub
      | none => pruned

/-- `_extract_main_content` (run on the already-pruned soup): preferred
container's text, cleaned up. -/
def mainContentOf (doc : Doc) : String :=
  cleanupText (getTextD (mainDocOf (pruneDoc doc)))

/-- `_analyze_links` on the (pruned) soup: `(internal, external)`. -/
def analyzeLinksCounts (domain : String) (pruned : Doc) : Nat × Nat :=
  (findAllElems (fun t a => t == "a" && (a.lookup "href").isSome) pruned).foldl
    (fun acc n =>
      let href := attrOfD n "href" ""
      if startsWithS href "#" || startsWithS href "mailto:"
          || startsWithS href "tel:" || startsWithS href "javascript:" then acc
      else if startsWithS href "/" || !(startsWithS href "http") then
        (acc.1 + 1, acc.2)
      else if isSameDomain domain href then (acc.1 + 1, acc.2)
      else (acc.1, acc.2 + 1))
    (0, 0)

/-- `_analyze_images` on the (pruned) soup: `(total, with_alt)`. -/
def analyzeImagesCounts (pruned : Doc) : Nat × Nat :=
  let images := findAllElems (tagIs "img") pruned
  (images.length,
   (images.filter (fun img =>
     match attrOf img "alt" with
     | some s => !(s == "")
     | none => false)).length)

/-- `<script type="application/ld+json">`. -/
def jsonLdPred : String → List (String × String) → Bool :=
  fun t a => t == "script" && (a.lookup "type" == some "application/ld+json")

/-- BeautifulSoup `.string`: the single text child, when the element's
subtree is exactly one string. -/
def scriptString (sub : Doc) : Option String :=
  match sub with
  | [.textN s _] => some s
  | _ => none

/-- First-occurrence deduplication (standing in for Python's `set`). -/
def dedupStr (l : List String) : List String :=
  l.foldl (fun acc x => if acc.contains x then acc else acc ++ [x]) []

end Crawler

namespace Crawler

/-- The JSON-LD processing of one script (`json.loads` plus `@type`
collection), as an oracle: `.error` models any raised exception (malformed
JSON, `loads(None)`), which the source catches and ignores. -/
def JsonTypesOracle : Type := Option String → Except Unit (List String)

/-- `textstat.flesch_reading_ease`, as an oracle: `.error` models a raised
exception, which the source catches. -/
def FleschOracle : Type := String → Except Unit ℚ

/-- `_extract_seo_data`: fills every SEO field of the record, best-effort.
The early fields (title, meta, headings, canonical) are read from the full
document; `_extract_main_content` then decomposes
script/style/nav/footer/header/aside in place, so word counts, paragraph
count, link, image and structured-data analysis all see the pruned
document. -/
def extractSeoData (jsonTypes : JsonTypesOracle) (flesch : FleschOracle)
    (ignore_noindex : Bool) (domain : String) (doc : Doc) (base : Rec) : Rec :=
  let title := match findFirst (tagIs "title") doc with
    | some (_, sub) => pyStrip (getTextD sub)
    | none => ""
  let metaDesc := match findFirst (fun t a =>
      t == "meta" && (a.lookup "name" == some "description")) doc with
    | some (n, _) => pyStrip (attrOfD n "content" "")
    | none => ""
  let h1s := findAllSubtrees (tagIs "h1") doc
  let h1_1 := match h1s.head? with
    | some (_, sub) => pyStrip (getTextD sub)
    | none => ""
  let h2s := findAllSubtrees (tagIs "h2") doc
  let h2_1 := match h2s.head? with
    | some (_, sub) => pyStrip (getTextD sub)
    | none => ""
  let h2_2 := match h2s.get? 1 with
    | some (_, sub) => pyStrip (getTextD sub)
    | none => ""
  let hier := validateHeadingHierarchy doc
  let metaRobots := match findFirst (fun t a =>
      t == "meta" && (a.lookup "name" == some "robots")) doc with
    | some (n, _) => pyStrip (attrOfD n "content" "")
    | none => ""
  let canonical := match findFirst (fun t a =>
      t == "link" && (a.lookup "rel" == some "canonical")) doc with
    | some (n, _) => pyStrip (attrOfD n "href" "")
    | none => ""
  let pruned := pruneDoc doc
  let mainContent := mainContentOf doc
  let fr := if mainContent ≠ "" then
      match flesch mainContent with
      | .ok q => (round1 q, readabilityLevel q)
      | .error _ => ((0 : ℚ), "N/A")
    else ((0 : ℚ), "N/A")
  let lk := analyzeLinksCounts domain pruned
  let im := analyzeImagesCounts pruned
  let scripts := findAllSubtrees jsonLdPred pruned
  let jsonTypesList := scripts.foldl (fun acc sc =>
      match jsonTypes (scriptString sc.2) with
      | .ok ts => acc ++ ts
      | .error _ => acc) []
  let microItems := findAllElems (fun _ a => (a.lookup "itemscope").isSome) pruned
  let microTypes := microItems.foldl (fun acc it =>
      let itemtype := attrOfD it "itemtype" ""
      if itemtype ≠ "" then
        acc ++ [(⟨(List.splitOn '/' itemtype.data).getLastD []⟩ : String)]
      else acc) []
  let schemaTypes := dedupStr (jsonTypesList ++ microTypes)
  let robotsLower := lowerS metaRobots
  let isNoindex := strContains robotsLower "noindex"
  { base with
    title := title
    titleLength := title.length
    metaDescription := metaDesc
    metaDescriptionLength := metaDesc.length
    h1_1 := h1_1
    h1_1Length := h1_1.length
    h1Count := h1s.length
    h2_1 := h2_1
    h2_1Length := h2_1.length
    h2_2 := h2_2
    h2_2Length := h2_2.length
    h2Count := h2s.length
    h3Count := (findAllElems (tagIs "h3") doc).length
    h4Count := (findAllElems (tagIs "h4") doc).length
    h5Count := (findAllElems (tagIs "h5") doc).length
    h6Count := (findAllElems (tagIs "h6") doc).length
    headingHierarchyValid := hier
    metaRobots := metaRobots
    canonical := canonical
    wordCount := wordCountOf mainContent
    paragraphCount := (findAllElems (tagIs "p") pruned).length
    sentenceCount := mainContent.data.count '.' + mainContent.data.count '!'
      + mainContent.data.count '?'
    fleschScore := fr.1
    readability := fr.2
    internalLinks := lk.1
    externalLinks := lk.2
    totalLinks := lk.1 + lk.2
    totalImages := im.1
    imagesWithAlt := im.2
    imagesWithoutAlt := im.1 - im.2
    altTextCoverage :=
      round1 (if 0 < im.1 then (im.2 : ℚ) / (im.1 : ℚ) * 100 else 0)
    jsonLdCount := scripts.length
    microdataCount := microItems.length
    schemaTypes := schemaTypes
    hasStructuredData := decide (0 < schemaTypes.length)
    indexability :=
      if isNoindex && !ignore_noindex then "Non-Indexable"
      else if isNoindex && ignore_noindex then "Non-Indexable (crawled anyway)"
      else "Indexable"
    inlinks := 0
    uniqueInlinks := 0 }

end Crawler

namespace Crawler

/-! ### `urllib.parse.urljoin` -/

/-- Schemes for which relative joining applies (`uses_relative`). -/
def usesRelative : List String :=
  ["", "ftp", "http", "gopher", "nntp", "imap", "wais", "file", "https",
   "shttp", "mms", "prospero", "rtsp", "rtspu", "sftp", "svn", "svn+ssh",
   "ws", "wss"]

/-- Schemes that carry a netloc (`uses_netloc`). -/
def usesNetloc : List String :=
  ["", "ftp", "http", "gopher", "nntp", "telnet", "imap", "wais", "file",
   "mms", "https", "shttp", "snews", "prospero", "rtsp", "rtspu", "rsync",
   "svn", "svn+ssh", "sftp", "nfs", "git", "git+ssh", "ws", "wss"]

/-- `segments[1:-1] = filter(None, segments[1:-1])`. -/
def filterMiddle : List (List Char) → List (List Char)
  | [] => []
  | [x] => [x]
  | x :: y :: rest =>
    x :: ((y :: rest).dropLast.filter (fun s => !s.isEmpty)
      ++ [(y :: rest).getLastD []])

/-- The `..` / `.` resolution loop of `urljoin`. -/
def resolveSegs : List (List Char) → List (List Char) → List (List Char)
  | acc, [] => acc
  | acc, seg :: rest =>
    if seg = ['.', '.'] then resolveSegs acc.dropLast rest
    else if seg = ['.'] then resolveSegs acc rest
    else resolveSegs (acc ++ [seg]) rest

/-- `urllib.parse.urljoin` (CPython's algorithm). -/
def urljoinL (base url : List Char) : List Char :=
  if base = [] then url
  else if url = [] then base
  else
    let b := urlparseL base
    let uu := urlparseL url
    let scheme := if uu.scheme = [] then b.scheme else uu.scheme
    if ¬(scheme = b.scheme ∧ usesRelative.contains ⟨scheme⟩) then url
    else if usesNetloc.contains ⟨scheme⟩ ∧ uu.netloc ≠ [] then
      urlunparseL scheme uu.netloc uu.path uu.params uu.query uu.fragment
    else
      let netloc := if usesNetloc.contains ⟨scheme⟩ then b.netloc else uu.netloc
      if uu.path = [] ∧ uu.params = [] then
        let query := if uu.query = [] then b.query else uu.query
        urlunparseL scheme netloc b.path b.params query uu.fragment
      else
        let baseParts0 := List.splitOn '/' b.path
        let baseParts := if baseParts0.getLastD [] ≠ [] then baseParts0.dropLast
          else baseParts0
        let segments := if uu.path.take 1 = ['/'] then List.splitOn '/' uu.path
          else filterMiddle (baseParts ++ List.splitOn '/' uu.path)
        let resolved0 := resolveSegs [] segments
        let resolved := if segments.getLastD [] = ['.']
            ∨ segments.getLastD [] = ['.', '.'] then resolved0 ++ [[]]
          else resolved0
        let joined := List.intercalate ['/'] resolved
        let path := if joined = [] then ['/'] else joined
        urlunparseL scheme netloc path uu.params uu.query uu.fragment

/-- `urljoin` on `String`s. -/
def urljoinS (base url : String) : String := ⟨urljoinL base.data url.data⟩

/-- `_extract_links`: hrefs of `<a>` tags, skipping fragments and
mailto/tel/javascript links, made absolute against the base and kept only
for http(s) schemes. (It runs after `_extract_seo_data`, so it sees the
pruned soup.) -/
def extractLinks (doc : Doc) (baseUrl : String) : List String :=
  (findAllElems (tagIs "a") doc).filterMap fun n =>
    match attrOf n "href" with
    | none => none
    | some href =>
      if href == "" then none
      else if startsWithS href "#" || startsWithS href "mailto:"
          || startsWithS href "tel:" || startsWithS href "javascript:" then none
      else
        let absolute := urljoinS baseUrl href
        let sch := (urlparseL absolute.data).scheme
        if sch = "http".data ∨ sch = "https".data then some absolute else none

/-! ### Crawler state and URL filters -/

/-- One Skip Record (`self.skipped_urls` entries). -/
structure Skip where
  url : String
  reason : String
  source : String
  deriving Repr, DecidableEq

/-- The constructor arguments of `SEOCrawler.__init__`. Compiled URL
patterns are abstracted as matchers (`pattern.search(url)` truthiness);
`_compile_patterns` raises nothing (invalid regexes are silently
dropped). -/
structure CrawlParams where
  start_url : String
  max_pages : Nat := 50
  max_depth : Nat := 3
  include_patterns : List (String → Bool) := []
  exclude_patterns : List (String → Bool) := []
  ignore_noindex : Bool := false
  request_timeout : Nat := 30
  delay_range : ℚ × ℚ := (1/2, 2)
  respect_robots : Bool := true
  follow_redirects : Bool := true
  use_sitemap : Bool := true

/-- The mutable state of a `SEOCrawler` instance. `robots` is the
`robots_parser` as a `can_fetch("*", url)` oracle, `none` when no parser
was installed. -/
structure CrawlerState where
  start_url : String
  domain : String
  max_pages : Nat
  max_depth : Nat
  visited_urls : List String
  to_visit : List (String × Nat)
  results : List Rec
  robots : Option (String → Bool)
  robots_crawl_delay : ℚ
  include_patterns : List (String → Bool)
  exclude_patterns : List (String → Bool)
  ignore_noindex : Bool
  request_timeout : Nat
  delay_range : ℚ × ℚ
  respect_robots : Bool
  follow_redirects : Bool
  use_sitemap : Bool
  robots_txt_status : String
  skipped_urls : List Skip
  sitemap_urls : List String
  sitemap_status : String
  urls_from_sitemap : Nat
  urls_from_crawling : Nat

/-- `SEOCrawler.__init__`: normalize the start URL, record its netloc as
the domain, seed the queue, and store the configuration. No validation is
performed and nothing can be rejected. -/
def mkCrawler (p : CrawlParams) : CrawlerState :=
  let start := normalizeUrl p.start_url
  { start_url := start
    domain := ⟨(urlparseL start.data).netloc⟩
    max_pages := p.max_pages
    max_depth := p.max_depth
    visited_urls := []
    to_visit := [(start, 0)]
    results := []
    robots := none
    robots_crawl_delay := 0
    include_patterns := p.include_patterns
    exclude_patterns := p.exclude_patterns
    ignore_noindex := p.ignore_noindex
    request_timeout := p.request_timeout
    delay_range := p.delay_range
    respect_robots := p.respect_robots
    follow_redirects := p.follow_redirects
    use_sitemap := p.use_sitemap
    robots_txt_status := "Not fetched"
    skipped_urls := []
    sitemap_urls := []
    sitemap_status := "Not fetched"
    urls_from_sitemap := 0
    urls_from_crawling := 0 }

/-- The extensions `_should_crawl_url` / `_should_crawl_url_advanced`
skip. -/
def skipExtensions : List String :=
  [".jpg", ".jpeg", ".png", ".gif", ".pdf", ".zip", ".exe", ".dmg", ".mp3",
   ".mp4", ".avi", ".mov", ".css", ".js", ".ico", ".xml", ".txt", ".doc",
   ".docx", ".xls", ".xlsx", ".ppt", ".pptx"]

/-- `any(path_lower.endswith(ext) for ext in skip_extensions)`. -/
def hasSkipExtension (url : String) : Bool :=
  let pathLower := lowerL (urlparseL url.data).path
  skipExtensions.any (fun ext => ext.data.isSuffixOf pathLower)

/-- `_should_crawl_url` — the filter applied when enqueueing extracted
links: skip-extension test, then robots (whenever a parser is present,
regardless of `respect_robots`). -/
def shouldCrawlUrl (st : CrawlerState) (url : String) : Bool :=
  if hasSkipExtension url then false
  else
    match st.robots with
    | some canFetch => canFetch url
    | none => true

/-- `_matches_patterns`. -/
def matchesPatterns (url : String) (pats : List (String → Bool)) : Bool :=
  pats.any (fun p => p url)

/-- `_should_crawl_url_advanced` — the filter applied when a URL is popped
from a queue: exclude patterns, include patterns, robots (gated on
`respect_robots`), then the skip extensions. -/
def shouldCrawlUrlAdvanced (st : CrawlerState) (url : String) : Bool × String :=
  if !st.exclude_patterns.isEmpty && matchesPatterns url st.exclude_patterns then
    (false, "Excluded by pattern")
  else if !st.include_patterns.isEmpty && !matchesPatterns url st.include_patterns then
    (false, "Not included by pattern")
  else if st.respect_robots &&
      (match st.robots with
       | some canFetch => !canFetch url
       | none => false) then
    (false, "Blocked by robots.txt")
  else if hasSkipExtension url then (false, "Non-HTML resource")
  else (true, "")

end Crawler

namespace Crawler

/-! ### `crawl_page` and the crawl loop -/

/-- One page response from the network. -/
structure Page where
  status : Nat
  contentType : String
  finalUrl : String
  doc : Doc

/-- What the network yields for a page GET: a response, or one of the
exception classes `crawl_page` catches. -/
inductive Fetch where
  | ok (p : Page)
  | timeout
  | sslError (msg : String)
  | connError (msg : String)
  | clientError (msg : String)
  | otherError (name msg : String)

/-- The network as a pure oracle. -/
def Web : Type := String → Fetch

/-- The GET request `crawl_page` issues for a frontier URL (source lines
315–321): the per-request timeout is the hardcoded
`aiohttp.ClientTimeout(total=30)` (which overrides the session default for
this request), redirects are allowed unconditionally, TLS verification is
off. -/
structure RequestSpec where
  url : String
  timeoutTotal : Nat
  allowRedirects : Bool
  sslVerify : Bool
  deriving Repr, DecidableEq

/-- The arguments of the `session.get` inside `crawl_page`. -/
def crawlPageRequest (url : String) : RequestSpec :=
  { url := url, timeoutTotal := 30, allowRedirects := true, sslVerify := false }

/-- The session-wide default timeout,
`aiohttp.ClientTimeout(total=self.request_timeout)` (line 578). -/
def sessionTimeout (st : CrawlerState) : Nat := st.request_timeout

/-- The explicit timeout of the robots.txt GET (line 120). -/
def robotsRequestTimeout : Nat := 10

/-- The explicit timeout of each sitemap GET (line 198). -/
def sitemapRequestTimeout : Nat := 15

/-- The record `crawl_page` returns on `asyncio.TimeoutError`; the message
hardcodes "30 seconds". -/
def timeoutRec (url : String) (depth : Nat) : Rec :=
  { address := url, statusCode := .timeout, contentType := "",
    error := "Request timeout after 30 seconds", crawlDepth := depth }

/-- The record `crawl_page` returns from its exception handlers. -/
def exnRec (url : String) (depth : Nat) (msg : String) : Rec :=
  { address := url, statusCode := .error, contentType := "",
    error := msg, crawlDepth := depth }

/-- `crawl_page`: produces the page record and the links it appends to
`to_visit`. HTML bodies (any status code) are analyzed; when
`depth < max_depth`, each extracted link is normalized and enqueued iff it
is not in `visited_urls`, is same-domain, and passes `_should_crawl_url` —
no include/exclude-pattern check happens here. -/
def crawlPage (web : Web) (jsonTypes : JsonTypesOracle) (flesch : FleschOracle)
    (st : CrawlerState) (url : String) (depth : Nat) :
    Rec × List (String × Nat) :=
  match web url with
  | .ok pg =>
    let base : Rec :=
      { address := url, finalUrl := pg.finalUrl,
        statusCode := .code pg.status, contentType := pg.contentType,
        loadTime := 0, crawlDepth := depth, error := "" }
    if strContains pg.contentType "text/html" then
      let rec2 := extractSeoData jsonTypes flesch st.ignore_noindex st.domain
        pg.doc base
      let newLinks :=
        if depth < st.max_depth then
          (extractLinks (pruneDoc pg.doc) pg.finalUrl).filterMap (fun link =>
            let nl := normalizeUrl link
            if !(st.visited_urls.contains nl) && isSameDomain st.domain nl
                && shouldCrawlUrl st nl then
              some (nl, depth + 1)
            else none)
        else []
      (rec2, newLinks)
    else (base, [])
  | .timeout => (timeoutRec url depth, [])
  | .sslError m => (exnRec url depth ("SSL Error: " ++ m), [])
  | .connError m => (exnRec url depth ("Connection Error: " ++ m), [])
  | .clientError m => (exnRec url depth ("Client Error: " ++ m), [])
  | .otherError n m =>
    (exnRec url depth ("Unexpected Error: " ++ n ++ ": " ++ m), [])

/-- `crawl_page_with_retry` as the crawl loop sees it under a
deterministic web: an attempt whose record is not Error/Timeout returns at
once with its enqueued links; a failing outcome fails all three attempts
identically (failing outcomes enqueue nothing), producing the final Error
record. -/
def crawlPageWithRetryDet (web : Web) (jsonTypes : JsonTypesOracle)
    (flesch : FleschOracle) (st : CrawlerState) (url : String) (depth : Nat) :
    Rec × List (String × Nat) :=
  let res := crawlPage web jsonTypes flesch st url depth
  if res.1.statusCode == .error || res.1.statusCode == .timeout then
    (failRec url depth res.1.error, [])
  else res

/-- The `while` loop state of `crawl`: the crawler object plus the
loop-local sitemap queue, page counter, and exit flag. -/
structure LoopState where
  st : CrawlerState
  smQueue : List (String × Nat)
  pagesCrawled : Nat
  finished : Bool

/-- The sitemap queue `crawl` builds before entering the loop: sitemap
URLs, normalized, at depth 0, skipping already-visited ones, when
`use_sitemap` is on and any sitemap URL was found. -/
def initLoop (st : CrawlerState) : LoopState :=
  let smQ := if st.use_sitemap && !st.sitemap_urls.isEmpty then
      st.sitemap_urls.filterMap (fun u =>
        let nu := normalizeUrl u
        if !(st.visited_urls.contains nu) then some (nu, 0) else none)
    else []
  ⟨st, smQ, 0, false⟩

/-- The part of the loop body shared by both queues: silent skip of
visited URLs, the `_should_crawl_url_advanced` filter (appending a Skip
Record on rejection), then visit marking, fetch with retry, and record
append. -/
def crawlIterBody (web : Web) (jsonTypes : JsonTypesOracle)
    (flesch : FleschOracle) (ls : LoopState) (url : String) (depth : Nat)
    (source : String) : LoopState :=
  if ls.st.visited_urls.contains url then ls
  else
    let adv := shouldCrawlUrlAdvanced ls.st url
    if !adv.1 then
      { ls with st := { ls.st with
          skipped_urls := ls.st.skipped_urls ++ [⟨url, adv.2, source⟩] } }
    else
      let st1 := { ls.st with visited_urls := ls.st.visited_urls ++ [url] }
      let res := crawlPageWithRetryDet web jsonTypes flesch st1 url depth
      { ls with
        st := { st1 with
          to_visit := st1.to_visit ++ res.2,
          results := st1.results ++ [{ res.1 with discoverySource := source }] },
        pagesCrawled := ls.pagesCrawled + 1 }

/-- One iteration of `while pages_crawled < max_pages`: pop from
`to_visit` first (counting it as a crawling pop), else from the sitemap
queue, else exit; `finished` marks loop exit. -/
def crawlStep (web : Web) (jsonTypes : JsonTypesOracle) (flesch : FleschOracle)
    (ls : LoopState) : LoopState :=
  if ls.finished then ls
  else if !(ls.pagesCrawled < ls.st.max_pages) then { ls with finished := true }
  else
    match ls.st.to_visit with
    | (url, depth) :: rest =>
      crawlIterBody web jsonTypes flesch
        { ls with st :=
            { ls.st with
              to_visit := rest,
              urls_from_crawling := ls.st.urls_from_crawling + 1 } }
        url depth "crawling"
    | [] =>
      match ls.smQueue with
      | (url, depth) :: rest =>
        crawlIterBody web jsonTypes flesch
          { ls with
            smQueue := rest,
            st := { ls.st with
                    urls_from_sitemap := ls.st.urls_from_sitemap + 1 } }
          url depth "sitemap"
      | [] => { ls with finished := true }

/-- `n` iterations of the crawl loop. -/
def crawlN (web : Web) (jsonTypes : JsonTypesOracle) (flesch : FleschOracle)
    (n : Nat) (ls : LoopState) : LoopState :=
  (crawlStep web jsonTypes flesch)^[n] ls

/-- The frontier: URLs of the discovered queue and the sitemap queue. -/
def frontierOf (ls : LoopState) : List String :=
  ls.st.to_visit.map Prod.fst ++ ls.smQueue.map Prod.fst

end Crawler

namespace Crawler

/-! ### Concrete runs and invariants for the crawl loop -/

/-- A structured-data oracle whose parse always fails. -/
def failJT : JsonTypesOracle := fun _ => .error ()

/-- A readability oracle whose computation always fails. -/
def failFL : FleschOracle := fun _ => .error ()

/-- A robots parser that blocks exactly `https://example.com/b`. -/
def c2Robots : String → Bool := fun u => !(u == "https://example.com/b")

/-- A start page holding a single same-domain anchor to `/b`. -/
def c2Doc : Doc :=
  [.elN "html" [] 0, .elN "body" [] 1, .elN "a" [("href", "/b")] 2]

/-- The network serving that start page. -/
def c2Web : Web := fun _ =>
  .ok { status := 200, contentType := "text/html",
        finalUrl := "https://example.com", doc := c2Doc }

/-- The crawler right after its robots.txt was parsed. -/
def c2State : CrawlerState :=
  { mkCrawler { start_url := "https://example.com" } with robots := some c2Robots }

def c2LS : LoopState := ⟨c2State, [], 0, false⟩

/-- A crawler configured with one exclude pattern, used to exercise the
pop-time filter. -/
def c2wState : CrawlerState :=
  { mkCrawler { start_url := "https://example.com" } with
    exclude_patterns := [fun v => v == "https://example.com/x"] }

def c2wLS : LoopState := ⟨c2wState, [], 0, false⟩

/-- A start page that links to `/a` twice. -/
def c3Doc : Doc := [.elN "a" [("href", "/a")] 0, .elN "a" [("href", "/a")] 0]

/-- The network for the C3 run: the start page has the doubled link, every
other page is empty HTML. -/
def c3Web : Web := fun u =>
  if u == "https://example.com" then
    .ok { status := 200, contentType := "text/html",
          finalUrl := "https://example.com", doc := c3Doc }
  else
    .ok { status := 200, contentType := "text/html", finalUrl := u, doc := [] }

/-- A configuration whose delay range is inverted (min 2 > max 1/2). -/
def c6Params : CrawlParams :=
  { start_url := "https://example.com", delay_range := (2, 1/2) }

/-- The network for the C6 run: every page is empty HTML. -/
def c6Web : Web := fun u =>
  .ok { status := 200, contentType := "text/html", finalUrl := u, doc := [] }

/-- A configuration with a 10-second request timeout. -/
def c5Params : CrawlParams :=
  { start_url := "https://example.com", request_timeout := 10 }

/-- No page is recorded twice: the visited set and the result addresses
are duplicate-free, and every result address was visited. -/
def noRefetch (ls : LoopState) : Prop :=
  ls.st.visited_urls.Nodup ∧ (ls.st.results.map Rec.address).Nodup ∧
  ∀ a ∈ ls.st.results.map Rec.address, a ∈ ls.st.visited_urls

end Crawler

namespace Crawler

/-- The analyzer never changes the Address of the base record. -/
theorem extractSeoData_address (jt : JsonTypesOracle) (fl : FleschOracle)
    (ig : Bool) (dom : String) (doc : Doc) (base : Rec) :
    (extractSeoData jt fl ig dom doc base).address = base.address := rfl

/-- `crawl_page` records exactly the URL it was given as Address. -/
theorem crawlPage_addr (web : Web) (jt : JsonTypesOracle) (fl : FleschOracle)
    (st : CrawlerState) (u : String) (d : Nat) :
    (crawlPage web jt fl st u d).1.address = u := by
  unfold crawlPage
  cases web u with
  | ok pg =>
    dsimp only
    split
    · exact extractSeoData_address jt fl st.ignore_noindex st.domain pg.doc _
    · rfl
  | timeout => rfl
  | sslError m => rfl
  | connError m => rfl
  | clientError m => rfl
  | otherError n m => rfl

/-- The retry wrapper also records exactly the URL it was given. -/
theorem crawlPageWithRetryDet_addr (web : Web) (jt : JsonTypesOracle)
    (fl : FleschOracle) (st : CrawlerState) (u : String) (d : Nat) :
    (crawlPageWithRetryDet web jt fl st u d).1.address = u := by
  unfold crawlPageWithRetryDet
  dsimp only
  split
  · rfl
  · exact crawlPage_addr web jt fl st u d

/-- The shared loop body preserves the no-refetch invariant. -/
theorem noRefetch_iterBody (web : Web) (jt : JsonTypesOracle)
    (fl : FleschOracle) (ls : LoopState) (u : String) (d : Nat) (src : String)
    (h : noRefetch ls) : noRefetch (crawlIterBody web jt fl ls u d src) := by
  unfold crawlIterBody
  dsimp only
  split
  · exact h
  rename_i hvis
  split
  · exact h
  have hu : u ∉ ls.st.visited_urls := by
    intro hmem
    exact hvis (by simpa [List.elem_iff] using hmem)
  refine ⟨?_, ?_, ?_⟩
  · exact ((List.perm_append_singleton u _).nodup_iff).mpr
      (List.nodup_cons.mpr ⟨hu, h.1⟩)
  · have haddr :
        (({ (crawlPageWithRetryDet web jt fl
            { ls.st with visited_urls := ls.st.visited_urls ++ [u] } u d).1 with
          discoverySource := src } : Rec).address) = u :=
      crawlPageWithRetryDet_addr web jt fl _ u d
    rw [List.map_append, List.map_cons, List.map_nil, haddr]
    refine ((List.perm_append_singleton u _).nodup_iff).mpr
      (List.nodup_cons.mpr ⟨?_, h.2.1⟩)
    intro hmem
    exact hu (h.2.2 u hmem)
  · intro a ha
    have haddr :
        (({ (crawlPageWithRetryDet web jt fl
            { ls.st with visited_urls := ls.st.visited_urls ++ [u] } u d).1 with
          discoverySource := src } : Rec).address) = u :=
      crawlPageWithRetryDet_addr web jt fl _ u d
    rw [List.map_append, List.map_cons, List.map_nil, haddr] at ha
    rcases List.mem_append.mp ha with h' | h'
    · exact List.mem_append.mpr (Or.inl (h.2.2 a h'))
    · exact List.mem_append.mpr (Or.inr h')

/-- One loop iteration preserves the no-refetch invariant. -/
theorem noRefetch_crawlStep (web : Web) (jt : JsonTypesOracle)
    (fl : FleschOracle) (ls : LoopState) (h : noRefetch ls) :
    noRefetch (crawlStep web jt fl ls) := by
  unfold crawlStep
  split
  · exact h
  split
  · exact h
  split
  · exact noRefetch_iterBody web jt fl _ _ _ _ h
  split
  · exact noRefetch_iterBody web jt fl _ _ _ _ h
  · exact h

end Crawler

namespace Crawler

/-- C2: the enqueue filter `_should_crawl_url` never consults the
include/exclude patterns — its verdict is invariant under replacing both
pattern lists — and at pop time a URL rejected by
`_should_crawl_url_advanced` is recorded as a Skip Record (with the
rejection reason and discovery source) while producing no page record. -/
theorem C2_enqueue_pattern_free (st : CrawlerState)
    (i1 i2 e1 e2 : List (String → Bool)) (url : String)
    (web : Web) (jt : JsonTypesOracle) (fl : FleschOracle) (ls : LoopState)
    (u : String) (d : Nat) (src : String)
    (hnv : ls.st.visited_urls.contains u = false)
    (hadv : (shouldCrawlUrlAdvanced ls.st u).1 = false) :
    (shouldCrawlUrl { st with include_patterns := i1, exclude_patterns := e1 } url
      = shouldCrawlUrl { st with include_patterns := i2, exclude_patterns := e2 } url)
    ∧ (crawlIterBody web jt fl ls u d src).st.skipped_urls
      = ls.st.skipped_urls ++ [⟨u, (shouldCrawlUrlAdvanced ls.st u).2, src⟩]
    ∧ (crawlIterBody web jt fl ls u d src).st.results = ls.st.results := by
  refine ⟨rfl, ?_, ?_⟩ <;>
  · unfold crawlIterBody
    dsimp only
    rw [if_neg (by rw [hnv]; exact Bool.false_ne_true),
      if_pos (by rw [hadv]; rfl)]

/-- C2 witness: with one exclude pattern and the unvisited URL
`https://example.com/x` matching it, the pop of that URL appends exactly
the Skip Record with reason "Excluded by pattern". -/
theorem C2_witness :
    c2wLS.st.visited_urls.contains "https://example.com/x" = false
    ∧ (shouldCrawlUrlAdvanced c2wLS.st "https://example.com/x").1 = false
    ∧ (crawlIterBody c2Web failJT failFL c2wLS "https://example.com/x" 1
        "crawling").st.skipped_urls
      = c2wLS.st.skipped_urls ++ [⟨"https://example.com/x",
          (shouldCrawlUrlAdvanced c2wLS.st "https://example.com/x").2, "crawling"⟩] :=
  ⟨rfl, rfl,
    (C2_enqueue_pattern_free c2wState [] [] [] [] "u" c2Web failJT failFL c2wLS
      "https://example.com/x" 1 "crawling" rfl rfl).2.1⟩

/-- C2 counterexample: robots.txt IS checked at enqueue time. With a
robots parser blocking `https://example.com/b`, the start page's link to
`/b` — same-domain, unvisited, within the depth bound — is neither
enqueued nor ever recorded as a Skip Record: after the pop of the start
page the discovered queue and the skip list are both empty. -/
theorem C2_robots_checked_at_enqueue :
    ((crawlStep c2Web failJT failFL c2LS).st.to_visit = []
      ∧ (crawlStep c2Web failJT failFL c2LS).st.skipped_urls = []
      ∧ (crawlStep c2Web failJT failFL c2LS).st.visited_urls
        = ["https://example.com"])
    ∧ (isSameDomain c2State.domain (normalizeUrl "https://example.com/b") = true
      ∧ c2State.visited_urls.contains (normalizeUrl "https://example.com/b") = false
      ∧ 0 < c2State.max_depth
      ∧ extractLinks (pruneDoc c2Doc) "https://example.com"
        = ["https://example.com/b"]) := by
  exact ⟨⟨rfl, rfl, rfl⟩, ⟨rfl, rfl, by decide, rfl⟩⟩

/-- C3 counterexample: a page that links to the same URL twice puts two
copies in the discovered queue; after the first copy is popped and
visited, the second is still in the frontier, so the frontier and the
visited set intersect. -/
theorem C3_frontier_visited_overlap :
    (frontierOf (crawlN c3Web failJT failFL 2
        (initLoop (mkCrawler { start_url := "https://example.com" })))).contains
      "https://example.com/a" = true
    ∧ (crawlN c3Web failJT failFL 2
        (initLoop (mkCrawler { start_url := "https://example.com" }))).st.visited_urls.contains
      "https://example.com/a" = true := by
  exact ⟨rfl, rfl⟩

/-- C3: what the loop does guarantee instead — for every network, every
configuration and every number of iterations, the visited set stays
duplicate-free, no URL gets two page records, and every recorded URL is in
the visited set (the pop-time `if url in visited: continue` makes a
repeated frontier entry harmless rather than impossible). -/
theorem C3_no_refetch (web : Web) (jt : JsonTypesOracle) (fl : FleschOracle)
    (p : CrawlParams) (n : Nat) :
    noRefetch (crawlN web jt fl n (initLoop (mkCrawler p))) := by
  induction n with
  | zero =>
    exact ⟨List.nodup_nil, List.nodup_nil,
      fun a ha => (List.not_mem_nil a ha).elim⟩
  | succ n ih =>
    have hstep := noRefetch_crawlStep web jt fl _ ih
    have heq : crawlN web jt fl (n + 1) (initLoop (mkCrawler p))
        = crawlStep web jt fl (crawlN web jt fl n (initLoop (mkCrawler p))) := by
      unfold crawlN
      exact Function.iterate_succ_apply' _ _ _
    rw [heq]
    exact hstep

/-- C5: false as stated — the GET issued for a frontier URL carries the
hardcoded `aiohttp.ClientTimeout(total=30)`, which overrides the session
default built from the configured `request_timeout`: with
`request_timeout := 10` the request is still bounded by 30 seconds, and
the Timeout record's message likewise hardcodes "30 seconds". -/
theorem C5_page_timeout_hardcoded :
    (∀ url : String, (crawlPageRequest url).timeoutTotal = 30
      ∧ (timeoutRec url 0).error = "Request timeout after 30 seconds")
    ∧ sessionTimeout (mkCrawler c5Params) = 10
    ∧ (crawlPageRequest "https://example.com/a").timeoutTotal
      ≠ sessionTimeout (mkCrawler c5Params) :=
  ⟨fun _ => ⟨rfl, rfl⟩, rfl, by decide⟩

/-- C6: false as stated — `SEOCrawler.__init__` validates nothing: every
configuration is stored verbatim (construction is a total function), in
particular an inverted delay range with min_delay 2 > max_delay 1/2, and
the crawl loop under that configuration still runs and produces a page
record. -/
theorem C6_no_construction_validation :
    (∀ p : CrawlParams, (mkCrawler p).delay_range = p.delay_range
      ∧ (mkCrawler p).start_url = normalizeUrl p.start_url)
    ∧ c6Params.delay_range.2 < c6Params.delay_range.1
    ∧ ((crawlN c6Web failJT failFL 1 (initLoop (mkCrawler c6Params))).st.results).map
        Rec.address = ["https://example.com"]
    ∧ (crawlN c6Web failJT failFL 1 (initLoop (mkCrawler c6Params))).pagesCrawled = 1 := by
  refine ⟨fun p => ⟨rfl, rfl⟩, ?_, rfl, rfl⟩
  show (1 / 2 : ℚ) < 2
  norm_num

end Crawler

namespace Crawler

/-- Helper: a JSON-LD oracle that always fails contributes nothing to the
schema-type accumulation (the `except: pass` around `json.loads`). -/
theorem jsonTypes_fold_of_fail (jt : JsonTypesOracle)
    (hjt : ∀ o, jt o = .error ()) (l : List (FlatNode × Doc))
    (init : List String) :
    l.foldl (fun acc sc =>
      match jt (scriptString sc.2) with
      | .ok ts => acc ++ ts
      | .error _ => acc) init = init := by
  induction l generalizing init with
  | nil => rfl
  | cons a t ih =>
    rw [List.foldl_cons, hjt]
    exact ih init

/-- C9: the analyzer is total and fills every field best-effort: the base
record's fields are preserved; a missing title/meta description/H1 gives
empty strings and zero counts; no headings validates the hierarchy; empty
main content gives zero words and score 0 / "N/A"; a throwing readability
library is caught and also gives 0 / "N/A"; a throwing JSON-LD parse is
caught and contributes no schema types (so with no microdata the type list
is empty); and Indexability is always one of its three labels. -/
theorem C9_analyzer_total_defaults (jt : JsonTypesOracle) (fl : FleschOracle)
    (ig : Bool) (dom : String) (doc : Doc) (base : Rec) :
    ((extractSeoData jt fl ig dom doc base).address = base.address
      ∧ (extractSeoData jt fl ig dom doc base).statusCode = base.statusCode
      ∧ (extractSeoData jt fl ig dom doc base).error = base.error)
    ∧ (findFirst (tagIs "title") doc = none →
        (extractSeoData jt fl ig dom doc base).title = ""
        ∧ (extractSeoData jt fl ig dom doc base).titleLength = 0)
    ∧ (findFirst (fun t a => t == "meta" && (a.lookup "name" == some "description")) doc
          = none →
        (extractSeoData jt fl ig dom doc base).metaDescription = ""
        ∧ (extractSeoData jt fl ig dom doc base).metaDescriptionLength = 0)
    ∧ (findAllSubtrees (tagIs "h1") doc = [] →
        (extractSeoData jt fl ig dom doc base).h1_1 = ""
        ∧ (extractSeoData jt fl ig dom doc base).h1Count = 0)
    ∧ (findAllElems (fun t _ => headingTags.contains t) doc = [] →
        (extractSeoData jt fl ig dom doc base).headingHierarchyValid = true)
    ∧ (mainContentOf doc = "" →
        (extractSeoData jt fl ig dom doc base).wordCount = 0
        ∧ (extractSeoData jt fl ig dom doc base).fleschScore = 0
        ∧ (extractSeoData jt fl ig dom doc base).readability = "N/A")
    ∧ ((∀ s, fl s = .error ()) →
        (extractSeoData jt fl ig dom doc base).fleschScore = 0
        ∧ (extractSeoData jt fl ig dom doc base).readability = "N/A")
    ∧ ((∀ o, jt o = .error ()) →
        findAllElems (fun _ a => (a.lookup "itemscope").isSome) (pruneDoc doc) = [] →
        (extractSeoData jt fl ig dom doc base).schemaTypes = []
        ∧ (extractSeoData jt fl ig dom doc base).hasStructuredData = false)
    ∧ ((extractSeoData jt fl ig dom doc base).indexability = "Non-Indexable"
        ∨ (extractSeoData jt fl ig dom doc base).indexability
          = "Non-Indexable (crawled anyway)"
        ∨ (extractSeoData jt fl ig dom doc base).indexability = "Indexable") := by
  refine ⟨⟨rfl, rfl, rfl⟩, ?_, ?_, ?_, ?_, ?_, ?_, ?_, ?_⟩
  · intro h
    constructor <;> simp only [extractSeoData, h] <;> rfl
  · intro h
    constructor <;> simp only [extractSeoData, h] <;> rfl
  · intro h
    constructor <;> simp only [extractSeoData, h, List.head?_nil, List.length_nil]
  · intro h
    simp only [extractSeoData, validateHeadingHierarchy, h, List.map_nil, hierGo]
  · intro h
    refine ⟨?_, ?_, ?_⟩ <;>
      simp only [extractSeoData, mainContentOf] at h ⊢ <;>
      rw [h] <;> simp [wordCountOf, List.splitOnP_nil]
  · intro hfl
    constructor <;> simp only [extractSeoData, hfl, ite_self]
  · intro hjt h
    have hfold := jsonTypes_fold_of_fail jt hjt
      (findAllSubtrees jsonLdPred (pruneDoc doc)) []
    constructor <;>
      simp only [extractSeoData, h, hfold, List.foldl_nil, List.append_nil,
        List.nil_append, dedupStr, List.length_nil] <;> rfl
  · simp only [extractSeoData]
    split
    · exact Or.inl rfl
    split
    · exact Or.inr (Or.inl rfl)
    · exact Or.inr (Or.inr rfl)

end Crawler

namespace Crawler

/-- C9 witness: on the empty document with an always-throwing readability
library and JSON-LD parser, the analyzer still yields the blank/zero
defaults. -/
theorem C9_witness :
    findFirst (tagIs "title") ([] : Doc) = none
    ∧ mainContentOf ([] : Doc) = ""
    ∧ (extractSeoData failJT failFL false "example.com" [] { address := "u" }).title = ""
    ∧ (extractSeoData failJT failFL false "example.com" [] { address := "u" }).fleschScore = 0
    ∧ (extractSeoData failJT failFL false "example.com" [] { address := "u" }).readability = "N/A"
    ∧ (extractSeoData failJT failFL false "example.com" [] { address := "u" }).schemaTypes = [] :=
  have h := C9_analyzer_total_defaults failJT failFL false "example.com" []
    { address := "u" }
  ⟨rfl, rfl, (h.2.1 rfl).1, (h.2.2.2.2.2.2.1 (fun _ => rfl)).1,
    (h.2.2.2.2.2.2.1 (fun _ => rfl)).2, (h.2.2.2.2.2.2.2.1 (fun _ => rfl) rfl).1⟩

end Crawler

namespace Crawler

/-! ### Issue detection (`detect_issues`) -/

/-- One issue row, projected to the fields the analysis depends on (Type,
URL, Severity); the constant Description/Impact/Fix/Category strings of
each rule are dropped. -/
structure Issue where
  type : String
  url : String
  severity : String
  deriving Repr, DecidableEq

/-- `page.get('Status Code') in [404, 500, 502, 503]` (the string codes
"Error"/"Timeout" compare unequal to every int). -/
def isServerErrorCode : StatusCode → Bool
  | .code n => n == 404 || n == 500 || n == 502 || n == 503
  | _ => false

/-- `_detect_page_issues`: the twelve per-page rules, in source order. -/
def detectPageIssues (page : Rec) : List Issue :=
  let url := page.address
  (if pyStrip page.title = "" then [⟨"Missing Title Tag", url, "Critical"⟩] else [])
  ++ (if isServerErrorCode page.statusCode then
        [⟨"Server Error", url, "Critical"⟩] else [])
  ++ (if page.h1Count = 0 then [⟨"Missing H1 Tag", url, "High"⟩] else [])
  ++ (if page.h1Count > 1 then [⟨"Multiple H1 Tags", url, "High"⟩] else [])
  ++ (if pyStrip page.metaDescription = "" then
        [⟨"Missing Meta Description", url, "High"⟩] else [])
  ++ (if page.titleLength > 60 then [⟨"Title Too Long", url, "Medium"⟩] else [])
  ++ (if page.metaDescriptionLength > 160 then
        [⟨"Meta Description Too Long", url, "Medium"⟩] else [])
  ++ (if page.wordCount < 300 then [⟨"Thin Content", url, "Medium"⟩] else [])
  ++ (if !page.headingHierarchyValid then
        [⟨"Poor Heading Hierarchy", url, "Medium"⟩] else [])
  ++ (if page.imagesWithoutAlt > 0 then
        [⟨"Missing Alt Text", url, "Medium"⟩] else [])
  ++ (if page.fleschScore < 30 then
        [⟨"Difficult Readability", url, "Low"⟩] else [])
  ++ (if pyStrip page.canonical = "" then
        [⟨"Missing Canonical Tag", url, "Low"⟩] else [])

/-- Insertion-ordered `dict[str, list[str]]`: `titles.setdefault(k, []).append(v)`. -/
def addGroup (m : List (String × List String)) (k v : String) :
    List (String × List String) :=
  if (m.map Prod.fst).contains k then
    m.map (fun p => if p.1 == k then (p.1, p.2 ++ [v]) else p)
  else m ++ [(k, [v])]

/-- The grouping loop of `detect_issues`: key is the STRIPPED field value,
empty keys are dropped, values are the Addresses in crawl order. -/
def collectGroups (f : Rec → String) (results : List Rec) :
    List (String × List String) :=
  results.foldl (fun m page =>
    let k := pyStrip (f page)
    if k = "" then m else addGroup m k page.address) []

/-- The per-group expansion of `_detect_duplicates`. -/
def duplicateIssuesOf (t sev : String) (groups : List (String × List String)) :
    List Issue :=
  groups.foldl (fun acc g =>
    acc ++ if g.2.length > 1 then g.2.map (fun u => (⟨t, u, sev⟩ : Issue))
      else []) []

/-- `_detect_duplicates`. -/
def detectDuplicates (titles metas : List (String × List String)) : List Issue :=
  duplicateIssuesOf "Duplicate Title Tag" "High" titles
  ++ duplicateIssuesOf "Duplicate Meta Description" "Medium" metas

/-- `severity_order.get(x['Severity'], 4)`. -/
def sevRank (s : String) : Nat :=
  if s == "Critical" then 0 else if s == "High" then 1
  else if s == "Medium" then 2 else if s == "Low" then 3 else 4

/-- `issues.sort(key=...)`: Python's sort is stable and the key takes only
the values 0–4, so the sorted list is the concatenation of the key buckets
in key order. -/
def sortBySeverity (issues : List Issue) : List Issue :=
  issues.filter (fun i => sevRank i.severity = 0)
  ++ issues.filter (fun i => sevRank i.severity = 1)
  ++ issues.filter (fun i => sevRank i.severity = 2)
  ++ issues.filter (fun i => sevRank i.severity = 3)
  ++ issues.filter (fun i => sevRank i.severity = 4)

/-- `detect_issues`: per-page issues in crawl order, then duplicate
issues, then the stable severity sort. -/
def detect_issues (results : List Rec) : List Issue :=
  let titles := collectGroups Rec.title results
  let metas := collectGroups Rec.metaDescription results
  let page_issues := results.foldl (fun acc p => acc ++ detectPageIssues p) []
  sortBySeverity (page_issues ++ detectDuplicates titles metas)

/-- The spec's wording of the C7 grouping: group by EXACT (unstripped)
non-empty title. Stated only to compare against `collectGroups`. -/
def exactTitleGroups (results : List Rec) : List (String × List String) :=
  results.foldl (fun m page =>
    if page.title = "" then m else addGroup m page.title page.address) []

/-- Two records whose titles differ exactly but agree after stripping. -/
def c7r1 : Rec := { address := "https://e.com/1", title := "A" }

def c7r2 : Rec := { address := "https://e.com/2", title := " A" }

end Crawler

namespace Crawler

/-- Membership in an appending fold. -/
theorem mem_foldl_append {α β : Type} (f : β → List α) (l : List β)
    (init : List α) (a : α) :
    a ∈ l.foldl (fun acc b => acc ++ f b) init ↔ a ∈ init ∨ ∃ b ∈ l, a ∈ f b := by
  induction l generalizing init with
  | nil => simp
  | cons x t ih =>
    rw [List.foldl_cons, ih]
    constructor
    · rintro (h | ⟨b, hb, hfb⟩)
      · rcases List.mem_append.mp h with h | h
        · exact Or.inl h
        · exact Or.inr ⟨x, List.mem_cons_self x t, h⟩
      · exact Or.inr ⟨b, List.mem_cons_of_mem _ hb, hfb⟩
    · rintro (h | ⟨b, hb, hfb⟩)
      · exact Or.inl (List.mem_append.mpr (Or.inl h))
      · rcases List.mem_cons.mp hb with rfl | hb
        · exact Or.inl (List.mem_append.mpr (Or.inr hfb))
        · exact Or.inr ⟨b, hb, hfb⟩

/-- Every severity rank is at most 4. -/
theorem sevRank_le_four (s : String) : sevRank s ≤ 4 := by
  unfold sevRank
  repeat' split
  all_goals omega

/-- The stable severity sort is a permutation in the only sense the issue
claims need: it preserves membership. -/
theorem mem_sortBySeverity (i : Issue) (l : List Issue) :
    i ∈ sortBySeverity l ↔ i ∈ l := by
  unfold sortBySeverity
  constructor
  · intro h
    simp only [List.mem_append, List.mem_filter] at h
    tauto
  · intro h
    have h4 := sevRank_le_four i.severity
    simp only [List.mem_append, List.mem_filter, decide_eq_true_eq]
    by_cases e0 : sevRank i.severity = 0
    · tauto
    by_cases e1 : sevRank i.severity = 1
    · tauto
    by_cases e2 : sevRank i.severity = 2
    · tauto
    by_cases e3 : sevRank i.severity = 3
    · tauto
    · have e4 : sevRank i.severity = 4 := by omega
      tauto

/-- Membership in a conditional singleton. -/
theorem mem_ite_singleton {α : Type} {c : Prop} [Decidable c] {x a : α}
    (h : a ∈ (if c then [x] else [])) : a = x := by
  split at h
  · exact List.mem_singleton.mp h
  · exact absurd h (List.not_mem_nil a)

/-- No per-page rule produces a duplicate-title issue. -/
theorem detectPageIssues_type (p : Rec) (i : Issue)
    (h : i ∈ detectPageIssues p) : i.type ≠ "Duplicate Title Tag" := by
  simp only [detectPageIssues, List.mem_append] at h
  rcases h with ((((((((((h|h)|h)|h)|h)|h)|h)|h)|h)|h)|h)|h <;>
    rw [mem_ite_singleton h] <;> simp

/-- Membership in the duplicate-expansion fold. -/
theorem mem_dupGo (t sev : String) (groups : List (String × List String))
    (init : List Issue) (i : Issue) :
    i ∈ groups.foldl (fun acc g =>
      acc ++ if g.2.length > 1 then g.2.map (fun u => (⟨t, u, sev⟩ : Issue))
        else []) init
    ↔ i ∈ init ∨ ∃ g ∈ groups, 1 < g.2.length ∧ ∃ u ∈ g.2, i = ⟨t, u, sev⟩ := by
  induction groups generalizing init with
  | nil => simp
  | cons x l ih =>
    rw [List.foldl_cons, ih]
    constructor
    · rintro (h | h)
      · rcases List.mem_append.mp h with h | h
        · exact Or.inl h
        · refine Or.inr ⟨x, List.mem_cons_self x l, ?_⟩
          by_cases hlen : x.2.length > 1
          · rw [if_pos hlen] at h
            rcases List.mem_map.mp h with ⟨u, hu, he⟩
            exact ⟨hlen, u, hu, he.symm⟩
          · rw [if_neg hlen] at h
            exact absurd h (List.not_mem_nil i)
      · rcases h with ⟨g, hg, hrest⟩
        exact Or.inr ⟨g, List.mem_cons_of_mem _ hg, hrest⟩
    · rintro (h | ⟨g, hg, hlen, u, hu, he⟩)
      · exact Or.inl (List.mem_append.mpr (Or.inl h))
      · rcases List.mem_cons.mp hg with rfl | hg
        · refine Or.inl (List.mem_append.mpr (Or.inr ?_))
          rw [if_pos hlen]
          exact List.mem_map.mpr ⟨u, hu, he.symm⟩
        · exact Or.inr ⟨g, hg, hlen, u, hu, he⟩

/-- C7: corrected grouping — `detect_issues` groups by STRIPPED non-empty
title: every stripped-title group of size at least 2 yields a Duplicate
Title Tag issue of severity High for every URL in the group, and
conversely every Duplicate Title Tag issue has severity High and its URL
lies in some stripped-title group of size at least 2 (so size-1 groups
yield none). -/
theorem C7_duplicate_title_groups (results : List Rec) :
    (∀ t urls u, (t, urls) ∈ collectGroups Rec.title results →
      2 ≤ urls.length → u ∈ urls →
      (⟨"Duplicate Title Tag", u, "High"⟩ : Issue) ∈ detect_issues results)
    ∧ (∀ i : Issue, i ∈ detect_issues results → i.type = "Duplicate Title Tag" →
      i.severity = "High"
      ∧ ∃ g, g ∈ collectGroups Rec.title results ∧ 2 ≤ g.2.length ∧ i.url ∈ g.2) := by
  constructor
  · intro t urls u hg h2 hu
    simp only [detect_issues]
    rw [mem_sortBySeverity]
    refine List.mem_append.mpr (Or.inr (List.mem_append.mpr (Or.inl ?_)))
    unfold duplicateIssuesOf
    exact (mem_dupGo "Duplicate Title Tag" "High" _ [] _).mpr
      (Or.inr ⟨(t, urls), hg, h2, u, hu, rfl⟩)
  · intro i hi htype
    simp only [detect_issues] at hi
    rw [mem_sortBySeverity] at hi
    rcases List.mem_append.mp hi with h | h
    · rcases (mem_foldl_append detectPageIssues results [] i).mp h with h' | ⟨p, _, hip⟩
      · exact absurd h' (List.not_mem_nil i)
      · exact absurd htype (detectPageIssues_type p i hip)
    · rcases List.mem_append.mp h with h | h
      · unfold duplicateIssuesOf at h
        rcases (mem_dupGo "Duplicate Title Tag" "High" _ [] i).mp h with h' | h'
        · exact absurd h' (List.not_mem_nil i)
        · rcases h' with ⟨g, hg, hlen, u, hu, rfl⟩
          exact ⟨rfl, g, hg, by omega, hu⟩
      · unfold duplicateIssuesOf at h
        rcases (mem_dupGo "Duplicate Meta Description" "Medium" _ [] i).mp h with h' | h'
        · exact absurd h' (List.not_mem_nil i)
        · rcases h' with ⟨g, hg, hlen, u, hu, rfl⟩
          simp at htype

/-- C7 counterexample: grouping is by STRIPPED title, not by exact title.
With titles "A" and " A" every exact-title group has size 1 (so the spec
predicts no duplicate-title issue), yet both URLs receive a Duplicate
Title Tag issue. -/
theorem C7_title_grouping_not_exact :
    (∀ g ∈ exactTitleGroups [c7r1, c7r2], g.2.length = 1)
    ∧ (⟨"Duplicate Title Tag", "https://e.com/1", "High"⟩ : Issue)
        ∈ detect_issues [c7r1, c7r2]
    ∧ (⟨"Duplicate Title Tag", "https://e.com/2", "High"⟩ : Issue)
        ∈ detect_issues [c7r1, c7r2] := by
  exact ⟨by decide, by decide, by decide⟩

/-- C7 witness: the two records form one stripped-title group of size 2,
and the theorem instantiates to give the second URL its issue. -/
theorem C7_witness :
    ("A", ["https://e.com/1", "https://e.com/2"]) ∈ collectGroups Rec.title [c7r1, c7r2]
    ∧ (⟨"Duplicate Title Tag", "https://e.com/2", "High"⟩ : Issue)
        ∈ detect_issues [c7r1, c7r2] :=
  ⟨by decide,
    (C7_duplicate_title_groups [c7r1, c7r2]).1 "A"
      ["https://e.com/1", "https://e.com/2"] "https://e.com/2" (by decide)
      (by decide) (by decide)⟩

end Crawler
